import Mathlib

/-!
Verification of the statistical core of the credit-risk modelling repository
(`shared/logic/threshold.py`, `shared/logic/evaluation.py`,
`shared/logic/preprocessing.py`, `shared/logic/feature_selection.py`).

Python floats are modelled as exact rationals (`ℚ`); numpy arrays as lists;
binary labels as `Bool` (`true` = positive class 1).  Functions that raise
`ValueError` are modelled with `Except`.  `sklearn.metrics.roc_curve` is
embedded following its implementation for sklearn ≥ 1.2 (descending distinct
score thresholds, `drop_intermediate` on second differences, a prepended
`(0, 0)` point whose threshold is `+inf`, division by the final cumulative
counts); the infinite threshold is modelled as `none : Option ℚ`.
-/

namespace CreditRisk

/-- Mirror of `shared.schemas.metrics.ThresholdResult` with exact rationals. -/
structure ThresholdResult where
  threshold : ℚ
  sensitivity : ℚ
  specificity : ℚ
  youden_j : ℚ
  precision : ℚ
  f1_score : ℚ
deriving DecidableEq, Repr

/-- Kinds of `ValueError` raised by `threshold.py` (distinguished by message). -/
inductive ThresholdError where
  | emptyInput
  | lengthMismatch
  | degenerateLabels
  | invalidThreshold
deriving DecidableEq, Repr

/-- Count of true positives at threshold `t`: label 1 and probability `≥ t`
(`np.sum((y_true == 1) & (y_pred == 1))` with `y_pred = y_proba >= t`). -/
def tpCount (ys : List Bool) (ps : List ℚ) (t : ℚ) : ℕ :=
  (ys.zip ps).countP fun yp => yp.1 && decide (t ≤ yp.2)

/-- Count of true negatives at threshold `t`. -/
def tnCount (ys : List Bool) (ps : List ℚ) (t : ℚ) : ℕ :=
  (ys.zip ps).countP fun yp => !yp.1 && decide (yp.2 < t)

/-- Count of false positives at threshold `t`. -/
def fpCount (ys : List Bool) (ps : List ℚ) (t : ℚ) : ℕ :=
  (ys.zip ps).countP fun yp => !yp.1 && decide (t ≤ yp.2)

/-- Count of false negatives at threshold `t`. -/
def fnCount (ys : List Bool) (ps : List ℚ) (t : ℚ) : ℕ :=
  (ys.zip ps).countP fun yp => yp.1 && decide (yp.2 < t)

/-- Embedding of `shared.logic.threshold.evaluate_threshold`. -/
def evaluate_threshold (ys : List Bool) (ps : List ℚ) (t : ℚ) :
    Except ThresholdError ThresholdResult :=
  if ¬ (0 ≤ t ∧ t ≤ 1) then .error .invalidThreshold
  else if ys.length ≠ ps.length then .error .lengthMismatch
  else
    let tp := tpCount ys ps t
    let tn := tnCount ys ps t
    let fp := fpCount ys ps t
    let fn := fnCount ys ps t
    let sensitivity : ℚ := if 0 < tp + fn then (tp : ℚ) / ((tp : ℚ) + (fn : ℚ)) else 0
    let specificity : ℚ := if 0 < tn + fp then (tn : ℚ) / ((tn : ℚ) + (fp : ℚ)) else 0
    let precision : ℚ := if 0 < tp + fp then (tp : ℚ) / ((tp : ℚ) + (fp : ℚ)) else 0
    let youden_j : ℚ := sensitivity + specificity - 1
    let f1 : ℚ :=
      if 0 < precision + sensitivity then
        2 * (precision * sensitivity) / (precision + sensitivity)
      else 0
    .ok ⟨t, sensitivity, specificity, youden_j, precision, f1⟩

/-- Insert a value into a strictly-descending list of distinct values, keeping
it strictly descending (used to model the distinct sorted score values that
`sklearn` sweeps as ROC thresholds). -/
def insertDescDistinct {α : Type} [LinearOrder α] (x : α) : List α → List α
  | [] => [x]
  | y :: ys =>
    if y < x then x :: y :: ys
    else if x = y then y :: ys
    else y :: insertDescDistinct x ys

/-- Distinct values of a list, sorted strictly descending. -/
def distinctDesc {α : Type} [LinearOrder α] (l : List α) : List α :=
  l.foldr insertDescDistinct []

/-- Mask of ROC points kept by `drop_intermediate`: the first point, the last
point, and every interior point where the second difference of the cumulative
false-positive or true-positive counts is non-zero
(`np.r_[True, np.logical_or(np.diff(fps, 2), np.diff(tps, 2)), True]`). -/
def keepMask (fps tps : List ℕ) : List Bool :=
  (List.range fps.length).map fun i =>
    decide (i = 0) || decide (i = fps.length - 1) ||
    decide (((fps.getD (i + 1) 0 : ℤ) - (fps.getD i 0 : ℤ)) ≠
            ((fps.getD i 0 : ℤ) - (fps.getD (i - 1) 0 : ℤ))) ||
    decide (((tps.getD (i + 1) 0 : ℤ) - (tps.getD i 0 : ℤ)) ≠
            ((tps.getD i 0 : ℤ) - (tps.getD (i - 1) 0 : ℤ)))

/-- Keep the elements of `l` whose mask entry is `true`. -/
def filterByMask {α : Type} (mask : List Bool) (l : List α) : List α :=
  (mask.zip l).filterMap fun p => if p.1 then some p.2 else none

/-- Mask of `drop_intermediate` for the cumulative counts of a ROC sweep. -/
def rocMask (ys : List Bool) (ps : List ℚ) : List Bool :=
  keepMask ((distinctDesc ps).map fun s => fpCount ys ps s)
    ((distinctDesc ps).map fun s => tpCount ys ps s)

/-- Cumulative ROC counts of `sklearn.metrics.roc_curve` before normalization:
false-positive counts, true-positive counts and the (finite) thresholds, after
`drop_intermediate` (applied only when there are more than two sweep points). -/
def rocPoints (ys : List Bool) (ps : List ℚ) : List ℕ × List ℕ × List ℚ :=
  if 2 < (distinctDesc ps).length then
    (filterByMask (rocMask ys ps) ((distinctDesc ps).map fun s => fpCount ys ps s),
     filterByMask (rocMask ys ps) ((distinctDesc ps).map fun s => tpCount ys ps s),
     filterByMask (rocMask ys ps) (distinctDesc ps))
  else ((distinctDesc ps).map fun s => fpCount ys ps s,
        (distinctDesc ps).map fun s => tpCount ys ps s,
        distinctDesc ps)

/-- Embedding of `sklearn.metrics.roc_curve` (sklearn ≥ 1.2): prepends the
`(fpr, tpr) = (0, 0)` point with threshold `+inf` (modelled as `none`) and
normalizes the cumulative counts by their final values. -/
def roc_curve (ys : List Bool) (ps : List ℚ) :
    List ℚ × List ℚ × List (Option ℚ) :=
  let fps := (rocPoints ys ps).1
  let tps := (rocPoints ys ps).2.1
  let ths := (rocPoints ys ps).2.2
  let fpDen : ℚ := (fps.getLastD 0 : ℚ)
  let tpDen : ℚ := (tps.getLastD 0 : ℚ)
  (0 :: fps.map (fun c : ℕ => (c : ℚ) / fpDen),
   0 :: tps.map (fun c : ℕ => (c : ℚ) / tpDen),
   none :: ths.map some)

/-- First index attaining the maximum of a list (`np.argmax`); `0` on `[]`. -/
def argmaxFirst : List ℚ → ℕ
  | [] => 0
  | x :: xs => if ∀ y ∈ xs, y ≤ x then 0 else argmaxFirst xs + 1

/-- The `fpr` array returned by `roc_curve`. -/
def rocFprList (ys : List Bool) (ps : List ℚ) : List ℚ :=
  (roc_curve ys ps).1

/-- The `tpr` array returned by `roc_curve`. -/
def rocTprList (ys : List Bool) (ps : List ℚ) : List ℚ :=
  (roc_curve ys ps).2.1

/-- The `thresholds` array returned by `roc_curve` (`none` = `+inf`). -/
def rocThList (ys : List Bool) (ps : List ℚ) : List (Option ℚ) :=
  (roc_curve ys ps).2.2

/-- Youden's J statistic at every ROC point (`youden_j = tpr - fpr`). -/
def youdenList (ys : List Bool) (ps : List ℚ) : List ℚ :=
  List.zipWith (fun a b => a - b) (rocTprList ys ps) (rocFprList ys ps)

/-- Index of the ROC point maximizing Youden's J (`np.argmax(youden_j)`). -/
def optimalIdx (ys : List Bool) (ps : List ℚ) : ℕ :=
  argmaxFirst (youdenList ys ps)

/-- Number of distinct classes among the labels (`len(np.unique(y_true))`). -/
def uniqueClassCount (ys : List Bool) : ℕ :=
  (if ys.contains false then 1 else 0) + (if ys.contains true then 1 else 0)

/-- Success path of `find_optimal_threshold` after its validation guards. -/
def findOptimalCore (ys : List Bool) (ps : List ℚ) : ThresholdResult :=
  let idx := optimalIdx ys ps
  let threshold : ℚ :=
    match (rocThList ys ps).getD idx none with
    | none => 1 / 2
    | some t => t
  let tprOpt := (rocTprList ys ps).getD idx 0
  let fprOpt := (rocFprList ys ps).getD idx 0
  let tnrOpt := 1 - fprOpt
  let jOpt := (youdenList ys ps).getD idx 0
  let tp := tpCount ys ps threshold
  let fp := fpCount ys ps threshold
  let precision : ℚ := if 0 < tp + fp then (tp : ℚ) / ((tp : ℚ) + (fp : ℚ)) else 0
  let f1 : ℚ :=
    if 0 < precision + tprOpt then 2 * (precision * tprOpt) / (precision + tprOpt)
    else 0
  ⟨threshold, tprOpt, tnrOpt, jOpt, precision, f1⟩

/-- Embedding of `shared.logic.threshold.find_optimal_threshold`. -/
def find_optimal_threshold (ys : List Bool) (ps : List ℚ) :
    Except ThresholdError ThresholdResult :=
  if ys.length = 0 ∨ ps.length = 0 then .error .emptyInput
  else if ys.length ≠ ps.length then .error .lengthMismatch
  else if uniqueClassCount ys = 1 then .error .degenerateLabels
  else .ok (findOptimalCore ys ps)

/-- Spec-side definition (for refinement comparison): precision recomputed
from predictions thresholded at `t`. -/
def metric_precision (ys : List Bool) (ps : List ℚ) (t : ℚ) : ℚ :=
  if 0 < tpCount ys ps t + fpCount ys ps t then
    (tpCount ys ps t : ℚ) / ((tpCount ys ps t : ℚ) + (fpCount ys ps t : ℚ))
  else 0

/-- Spec-side definition (for refinement comparison): recall recomputed from
predictions thresholded at `t`. -/
def metric_recall (ys : List Bool) (ps : List ℚ) (t : ℚ) : ℚ :=
  if 0 < tpCount ys ps t + fnCount ys ps t then
    (tpCount ys ps t : ℚ) / ((tpCount ys ps t : ℚ) + (fnCount ys ps t : ℚ))
  else 0

/-- Spec-side definition (for refinement comparison): F1 recomputed from the
precision and recall of predictions thresholded at `t`. -/
def metric_f1 (ys : List Bool) (ps : List ℚ) (t : ℚ) : ℚ :=
  if 0 < metric_precision ys ps t + metric_recall ys ps t then
    2 * (metric_precision ys ps t * metric_recall ys ps t) /
      (metric_precision ys ps t + metric_recall ys ps t)
  else 0

/-- Specificity of predictions thresholded at `t` (`tn/(tn+fp)`, 0 when the
denominator is 0). -/
def specificityAt (ys : List Bool) (ps : List ℚ) (t : ℚ) : ℚ :=
  if 0 < tnCount ys ps t + fpCount ys ps t then
    (tnCount ys ps t : ℚ) / ((tnCount ys ps t : ℚ) + (fpCount ys ps t : ℚ))
  else 0

/-- Embedding of `shared.logic.evaluation.calculate_model_confidence`. -/
def calculate_model_confidence (ps : List ℚ) (t : ℚ) : List ℚ :=
  ps.map fun p => |p - t| / max t (1 - t)

/-- Mirror of `shared.schemas.metrics.ConfusionMatrix`. -/
structure ConfusionMatrix where
  matrix : List (List ℕ)
  true_negatives : ℕ
  false_positives : ℕ
  false_negatives : ℕ
  true_positives : ℕ
deriving DecidableEq, Repr

/-- Embedding of `sklearn.metrics.confusion_matrix` restricted to binary-valued
inputs: the label set is the sorted union of the values appearing in `y_true`
and `y_pred`, and the matrix has one row/column per label present. -/
def sk_confusion_matrix (y_true y_pred : List Bool) : List (List ℕ) :=
  let pairs := y_true.zip y_pred
  let hasF := y_true.contains false || y_pred.contains false
  let hasT := y_true.contains true || y_pred.contains true
  match hasF, hasT with
  | true, true =>
      [[pairs.countP fun z => !z.1 && !z.2, pairs.countP fun z => !z.1 && z.2],
       [pairs.countP fun z => z.1 && !z.2, pairs.countP fun z => z.1 && z.2]]
  | true, false => [[pairs.countP fun z => !z.1 && !z.2]]
  | false, true => [[pairs.countP fun z => z.1 && z.2]]
  | false, false => []

/-- Embedding of `shared.logic.evaluation.calculate_confusion_matrix`: builds
the sklearn confusion matrix and raises unless its shape is 2×2. -/
def calculate_confusion_matrix (y_true y_pred : List Bool) :
    Except String ConfusionMatrix :=
  let cm := sk_confusion_matrix y_true y_pred
  if cm.length = 2 ∧ (cm.getD 0 []).length = 2 ∧ (cm.getD 1 []).length = 2 then
    .ok ⟨cm, (cm.getD 0 []).getD 0 0, (cm.getD 0 []).getD 1 0,
         (cm.getD 1 []).getD 0 0, (cm.getD 1 []).getD 1 0⟩
  else .error "Expected 2x2 confusion matrix"

/-! ### Counting lemmas -/

lemma countP_ge_add_lt (t : ℚ) :
    ∀ l : List (Bool × ℚ),
      l.countP (fun yp => yp.1 && decide (t ≤ yp.2)) +
        l.countP (fun yp => yp.1 && decide (yp.2 < t)) =
      l.countP (fun yp => yp.1) := by
  intro l
  induction l with
  | nil => rfl
  | cons a l ih =>
    rcases a with ⟨b, q⟩
    rcases le_or_lt t q with h | h <;> cases b <;>
      simp [List.countP_cons, h, not_le.mpr, not_lt.mpr] <;> omega

lemma countP_neg_ge_add_lt (t : ℚ) :
    ∀ l : List (Bool × ℚ),
      l.countP (fun yp => !yp.1 && decide (yp.2 < t)) +
        l.countP (fun yp => !yp.1 && decide (t ≤ yp.2)) =
      l.countP (fun yp => !yp.1) := by
  intro l
  induction l with
  | nil => rfl
  | cons a l ih =>
    rcases a with ⟨b, q⟩
    rcases le_or_lt t q with h | h <;> cases b <;>
      simp [List.countP_cons, h, not_le.mpr, not_lt.mpr] <;> omega

lemma tpCount_add_fnCount (ys : List Bool) (ps : List ℚ) (t : ℚ) :
    tpCount ys ps t + fnCount ys ps t = (ys.zip ps).countP (fun yp => yp.1) :=
  countP_ge_add_lt t (ys.zip ps)

lemma tnCount_add_fpCount (ys : List Bool) (ps : List ℚ) (t : ℚ) :
    tnCount ys ps t + fpCount ys ps t = (ys.zip ps).countP (fun yp => !yp.1) :=
  countP_neg_ge_add_lt t (ys.zip ps)

lemma exists_pair_of_mem_left {b : Bool} :
    ∀ {ys : List Bool} {ps : List ℚ}, b ∈ ys → ys.length = ps.length →
      ∃ q, q ∈ ps ∧ (b, q) ∈ ys.zip ps := by
  intro ys
  induction ys with
  | nil => intro ps h; cases h
  | cons y ys ih =>
    intro ps hmem hlen
    cases ps with
    | nil => simp at hlen
    | cons q ps =>
      rcases List.mem_cons.mp hmem with rfl | hmem'
      · exact ⟨q, List.mem_cons_self q ps, List.mem_cons_self _ _⟩
      · obtain ⟨q', hq', hmemz⟩ := ih hmem' (by simpa using hlen)
        exact ⟨q', List.mem_cons_of_mem _ hq', List.mem_cons_of_mem _ hmemz⟩

/-- Shape of `evaluate_threshold`'s successful result: the returned record is
built from the recomputed recall, specificity, precision and F1 of predictions
thresholded at `t` (predicted positive iff `t ≤ p`). -/
lemma evaluate_threshold_ok (ys : List Bool) (ps : List ℚ) (t : ℚ)
    (hlen : ys.length = ps.length) (h0 : 0 ≤ t) (h1 : t ≤ 1) :
    evaluate_threshold ys ps t =
      .ok ⟨t, metric_recall ys ps t, specificityAt ys ps t,
           metric_recall ys ps t + specificityAt ys ps t - 1,
           metric_precision ys ps t, metric_f1 ys ps t⟩ := by
  simp [evaluate_threshold, hlen, h0, h1, metric_recall, metric_precision,
    metric_f1, specificityAt]

/-! ### C10: `evaluate_threshold` on empty arrays -/

/-- C10: for every threshold `t ∈ [0,1]`, `evaluate_threshold` on empty label
and probability arrays does not raise and returns sensitivity 0, specificity 0,
precision 0, F1 0 and Youden's J −1 (all guarded divisions fall back to 0). -/
theorem evaluate_threshold_empty (t : ℚ) (h0 : 0 ≤ t) (h1 : t ≤ 1) :
    evaluate_threshold [] [] t = .ok ⟨t, 0, 0, -1, 0, 0⟩ := by
  rw [evaluate_threshold_ok [] [] t rfl h0 h1]
  norm_num [metric_recall, metric_precision, metric_f1, specificityAt,
    tpCount, tnCount, fpCount, fnCount]

/-- Witness for C10 at the concrete threshold 1/2. -/
theorem evaluate_threshold_empty_witness :
    (0 ≤ (1 / 2 : ℚ)) ∧ ((1 / 2 : ℚ) ≤ 1) ∧
      evaluate_threshold [] [] (1 / 2) = .ok ⟨1 / 2, 0, 0, -1, 0, 0⟩ :=
  ⟨by norm_num, by norm_num, evaluate_threshold_empty (1 / 2) (by norm_num) (by norm_num)⟩

/-! ### C2: `evaluate_threshold` metric formulas -/

/-- C2: for every threshold `t ∈ [0,1]` and equal-length arrays,
`evaluate_threshold` returns sensitivity `tp/(tp+fn)` (0 when the denominator
is 0), specificity `tn/(tn+fp)` (0 when the denominator is 0), with predicted
positive exactly when `t ≤ p`, and `youden_j = sensitivity + specificity − 1`
exactly.  The denominators are the total positive resp. negative label counts. -/
theorem evaluate_threshold_formulas (ys : List Bool) (ps : List ℚ) (t : ℚ)
    (hlen : ys.length = ps.length) (h0 : 0 ≤ t) (h1 : t ≤ 1) :
    ∃ r, evaluate_threshold ys ps t = .ok r ∧
      r.sensitivity =
        (if 0 < tpCount ys ps t + fnCount ys ps t then
          (tpCount ys ps t : ℚ) / ((tpCount ys ps t : ℚ) + (fnCount ys ps t : ℚ))
         else 0) ∧
      r.specificity =
        (if 0 < tnCount ys ps t + fpCount ys ps t then
          (tnCount ys ps t : ℚ) / ((tnCount ys ps t : ℚ) + (fpCount ys ps t : ℚ))
         else 0) ∧
      tpCount ys ps t + fnCount ys ps t = (ys.zip ps).countP (fun yp => yp.1) ∧
      tnCount ys ps t + fpCount ys ps t = (ys.zip ps).countP (fun yp => !yp.1) ∧
      r.youden_j = r.sensitivity + r.specificity - 1 :=
  ⟨_, evaluate_threshold_ok ys ps t hlen h0 h1, rfl, rfl,
    tpCount_add_fnCount ys ps t, tnCount_add_fpCount ys ps t, rfl⟩

/-- Witness for C2 at concrete input. -/
theorem evaluate_threshold_formulas_witness :
    ([false, true] : List Bool).length = ([1/4, 3/4] : List ℚ).length ∧
      (0 ≤ (1/2 : ℚ)) ∧ ((1/2 : ℚ) ≤ 1) ∧
      (∃ r, evaluate_threshold [false, true] [1/4, 3/4] (1/2) = .ok r ∧
        r.sensitivity =
          (if 0 < tpCount [false, true] [1/4, 3/4] (1/2) + fnCount [false, true] [1/4, 3/4] (1/2) then
            (tpCount [false, true] [1/4, 3/4] (1/2) : ℚ) /
              ((tpCount [false, true] [1/4, 3/4] (1/2) : ℚ) + (fnCount [false, true] [1/4, 3/4] (1/2) : ℚ))
           else 0) ∧
        r.specificity =
          (if 0 < tnCount [false, true] [1/4, 3/4] (1/2) + fpCount [false, true] [1/4, 3/4] (1/2) then
            (tnCount [false, true] [1/4, 3/4] (1/2) : ℚ) /
              ((tnCount [false, true] [1/4, 3/4] (1/2) : ℚ) + (fpCount [false, true] [1/4, 3/4] (1/2) : ℚ))
           else 0) ∧
        tpCount [false, true] [1/4, 3/4] (1/2) + fnCount [false, true] [1/4, 3/4] (1/2) =
          (([false, true] : List Bool).zip ([1/4, 3/4] : List ℚ)).countP (fun yp => yp.1) ∧
        tnCount [false, true] [1/4, 3/4] (1/2) + fpCount [false, true] [1/4, 3/4] (1/2) =
          (([false, true] : List Bool).zip ([1/4, 3/4] : List ℚ)).countP (fun yp => !yp.1) ∧
        r.youden_j = r.sensitivity + r.specificity - 1) :=
  ⟨rfl, by norm_num, by norm_num,
    evaluate_threshold_formulas [false, true] [1/4, 3/4] (1/2) rfl (by norm_num) (by norm_num)⟩

/-! ### C5: `evaluate_threshold` at the boundary thresholds 0 and 1 -/

lemma metric_recall_eq_one (ys : List Bool) (ps : List ℚ) (t : ℚ)
    (hfn : fnCount ys ps t = 0) (htp : 0 < tpCount ys ps t) :
    metric_recall ys ps t = 1 := by
  unfold metric_recall
  rw [hfn, if_pos (by omega)]
  simp only [Nat.cast_zero, add_zero]
  exact div_self (by exact_mod_cast htp.ne')

lemma metric_recall_eq_zero (ys : List Bool) (ps : List ℚ) (t : ℚ)
    (htp : tpCount ys ps t = 0) : metric_recall ys ps t = 0 := by
  unfold metric_recall
  rw [htp]
  split_ifs <;> simp

lemma specificityAt_eq_zero (ys : List Bool) (ps : List ℚ) (t : ℚ)
    (htn : tnCount ys ps t = 0) : specificityAt ys ps t = 0 := by
  unfold specificityAt
  rw [htn]
  split_ifs <;> simp

lemma specificityAt_eq_one (ys : List Bool) (ps : List ℚ) (t : ℚ)
    (hfp : fpCount ys ps t = 0) (htn : 0 < tnCount ys ps t) :
    specificityAt ys ps t = 1 := by
  unfold specificityAt
  rw [hfp, if_pos (by omega)]
  simp only [Nat.cast_zero, add_zero]
  exact div_self (by exact_mod_cast htn.ne')

/-- C5 (amended): with probabilities in `[0,1]`, threshold 0 predicts every
sample positive, so specificity is 0 and sensitivity is 1 when a positive
label exists (0 otherwise); threshold 1 predicts a sample positive exactly
when its probability equals 1, so when no probability equals 1 sensitivity is
0 and specificity is 1 when a negative label exists (0 otherwise). -/
theorem evaluate_threshold_boundary (ys : List Bool) (ps : List ℚ)
    (hlen : ys.length = ps.length) (hp : ∀ p ∈ ps, 0 ≤ p ∧ p ≤ 1) :
    (∃ r, evaluate_threshold ys ps 0 = .ok r ∧ r.specificity = 0 ∧
      (true ∈ ys → r.sensitivity = 1) ∧ (true ∉ ys → r.sensitivity = 0)) ∧
    (∃ r, evaluate_threshold ys ps 1 = .ok r ∧
      ((∀ p ∈ ps, p < 1) → r.sensitivity = 0 ∧
        (false ∈ ys → r.specificity = 1) ∧ (false ∉ ys → r.specificity = 0))) := by
  constructor
  · refine ⟨_, evaluate_threshold_ok ys ps 0 hlen le_rfl zero_le_one, ?_, ?_, ?_⟩
    · refine specificityAt_eq_zero ys ps 0 (List.countP_eq_zero.mpr ?_)
      rintro ⟨b, q⟩ hmem
      have hq := (hp q (List.of_mem_zip hmem).2).1
      simp [not_lt.mpr hq]
    · intro htrue
      obtain ⟨q, hq, hmem⟩ := exists_pair_of_mem_left htrue hlen
      refine metric_recall_eq_one ys ps 0 (List.countP_eq_zero.mpr ?_) ?_
      · rintro ⟨b, q'⟩ hmem'
        have hq' := (hp q' (List.of_mem_zip hmem').2).1
        simp [not_lt.mpr hq']
      · exact List.countP_pos.mpr ⟨(true, q), hmem, by simp [(hp q hq).1]⟩
    · intro htrue
      refine metric_recall_eq_zero ys ps 0 (List.countP_eq_zero.mpr ?_)
      rintro ⟨b, q⟩ hmem
      have hb := (List.of_mem_zip hmem).1
      cases b
      · simp
      · exact absurd hb htrue
  · refine ⟨_, evaluate_threshold_ok ys ps 1 hlen zero_le_one le_rfl, ?_⟩
    intro hlt
    have htp : tpCount ys ps 1 = 0 := by
      refine List.countP_eq_zero.mpr ?_
      rintro ⟨b, q⟩ hmem
      have hq := hlt q (List.of_mem_zip hmem).2
      simp [not_le.mpr hq]
    have hfp : fpCount ys ps 1 = 0 := by
      refine List.countP_eq_zero.mpr ?_
      rintro ⟨b, q⟩ hmem
      have hq := hlt q (List.of_mem_zip hmem).2
      simp [not_le.mpr hq]
    refine ⟨metric_recall_eq_zero ys ps 1 htp, ?_, ?_⟩
    · intro hfalse
      obtain ⟨q, hq, hmem⟩ := exists_pair_of_mem_left hfalse hlen
      exact specificityAt_eq_one ys ps 1 hfp
        (List.countP_pos.mpr ⟨(false, q), hmem, by simp [hlt q hq]⟩)
    · intro hfalse
      refine specificityAt_eq_zero ys ps 1 (List.countP_eq_zero.mpr ?_)
      rintro ⟨b, q⟩ hmem
      have hb := (List.of_mem_zip hmem).1
      cases b
      · exact absurd hb hfalse
      · simp

/-- Counterexample to C5 as stated: at threshold 1.0 a sample with probability
exactly 1.0 is predicted positive (`>=` rule), so on labels `[1]` with
probabilities `[1.0]` the returned sensitivity is 1.0, not 0.0, and the
specificity is 0.0, not 1.0. -/
theorem evaluate_threshold_boundary_counterexample :
    evaluate_threshold [true] [1] 1 = .ok ⟨1, 1, 0, 0, 1, 1⟩ ∧ (1 : ℚ) ≠ 0 := by
  constructor
  · rw [evaluate_threshold_ok [true] [1] 1 rfl zero_le_one le_rfl]
    norm_num [metric_recall, metric_precision, metric_f1, specificityAt,
      tpCount, tnCount, fpCount, fnCount, List.countP_cons]
  · norm_num

/-- Witness for C5 at concrete input. -/
theorem evaluate_threshold_boundary_witness :
    ([true, false] : List Bool).length = ([3/4, 1/4] : List ℚ).length ∧
      (∀ p ∈ ([3/4, 1/4] : List ℚ), 0 ≤ p ∧ p ≤ 1) ∧
      ((∃ r, evaluate_threshold [true, false] [3/4, 1/4] 0 = .ok r ∧ r.specificity = 0 ∧
        (true ∈ [true, false] → r.sensitivity = 1) ∧
        (true ∉ [true, false] → r.sensitivity = 0)) ∧
      (∃ r, evaluate_threshold [true, false] [3/4, 1/4] 1 = .ok r ∧
        ((∀ p ∈ ([3/4, 1/4] : List ℚ), p < 1) → r.sensitivity = 0 ∧
          (false ∈ [true, false] → r.specificity = 1) ∧
          (false ∉ [true, false] → r.specificity = 0)))) :=
  ⟨rfl, by norm_num,
    evaluate_threshold_boundary [true, false] [3/4, 1/4] rfl (by norm_num)⟩

/-! ### C3: prediction confidence -/

lemma half_le_max_sub (t : ℚ) : 1 / 2 ≤ max t (1 - t) := by
  rcases le_total t (1 - t) with h | h
  · rw [max_eq_right h]; linarith
  · rw [max_eq_left h]; linarith

lemma getD_map_lt {α β : Type} (f : α → β) (l : List α) (i : ℕ)
    (h : i < l.length) (d : β) (d' : α) : (l.map f).getD i d = f (l.getD i d') := by
  rw [List.getD_eq_get _ _ (by simpa using h), List.getD_eq_get _ _ h]
  simp

/-- C3 (amended): confidence is computed elementwise as
`|p − t| / max(t, 1 − t)`; it is 0 whenever `p = t`, while for the extreme
probabilities it is 1 exactly when the entry lies at maximal distance from
the threshold: at `p = 0` iff `1/2 ≤ t`, and at `p = 1` iff `t ≤ 1/2` (so both
extremes give 1 only when `t = 1/2`). -/
theorem calculate_model_confidence_spec (ps : List ℚ) (t : ℚ)
    (h0 : 0 ≤ t) (h1 : t ≤ 1) :
    (calculate_model_confidence ps t).length = ps.length ∧
    ∀ i, i < ps.length →
      (calculate_model_confidence ps t).getD i 0 = |ps.getD i 0 - t| / max t (1 - t) ∧
      (ps.getD i 0 = t → (calculate_model_confidence ps t).getD i 0 = 0) ∧
      (ps.getD i 0 = 0 → ((calculate_model_confidence ps t).getD i 0 = 1 ↔ 1 / 2 ≤ t)) ∧
      (ps.getD i 0 = 1 → ((calculate_model_confidence ps t).getD i 0 = 1 ↔ t ≤ 1 / 2)) := by
  have hM : (0 : ℚ) < max t (1 - t) := lt_of_lt_of_le (by norm_num) (half_le_max_sub t)
  refine ⟨by simp [calculate_model_confidence], ?_⟩
  intro i hi
  have hval : (calculate_model_confidence ps t).getD i 0 =
      |ps.getD i 0 - t| / max t (1 - t) :=
    getD_map_lt _ ps i hi 0 0
  refine ⟨hval, ?_, ?_, ?_⟩
  · intro hpt
    rw [hval, hpt]
    simp
  · intro hp0
    rw [hval, hp0]
    rw [abs_of_nonpos (by linarith), neg_sub, sub_zero]
    rw [div_eq_one_iff_eq hM.ne']
    constructor
    · intro h
      have := le_max_right t (1 - t)
      rw [← h] at this
      linarith
    · intro h
      rw [max_eq_left (by linarith)]
  · intro hp1
    rw [hval, hp1]
    rw [abs_of_nonneg (by linarith)]
    rw [div_eq_one_iff_eq hM.ne']
    constructor
    · intro h
      have := le_max_left t (1 - t)
      rw [← h] at this
      linarith
    · intro h
      rw [max_eq_right (by linarith)]

/-- Counterexample to C3 as stated: at threshold 1/4, the entry `p = 0` has
confidence `(1/4) / (3/4) = 1/3 ≠ 1`, although `0 ∈ {0, 1}`. -/
theorem calculate_model_confidence_counterexample :
    calculate_model_confidence [0] (1 / 4) = [1 / 3] ∧ (1 / 3 : ℚ) ≠ 1 := by
  constructor
  · norm_num [calculate_model_confidence, abs_of_nonpos, max_eq_right]
  · norm_num

/-- Witness for C3 at concrete input. -/
theorem calculate_model_confidence_witness :
    (0 ≤ (1 / 2 : ℚ)) ∧ ((1 / 2 : ℚ) ≤ 1) ∧
      ((calculate_model_confidence [0, 1] (1 / 2)).length = ([0, 1] : List ℚ).length ∧
      ∀ i, i < ([0, 1] : List ℚ).length →
        (calculate_model_confidence [0, 1] (1 / 2)).getD i 0 =
          |([0, 1] : List ℚ).getD i 0 - 1 / 2| / max (1 / 2) (1 - 1 / 2) ∧
        (([0, 1] : List ℚ).getD i 0 = 1 / 2 →
          (calculate_model_confidence [0, 1] (1 / 2)).getD i 0 = 0) ∧
        (([0, 1] : List ℚ).getD i 0 = 0 →
          ((calculate_model_confidence [0, 1] (1 / 2)).getD i 0 = 1 ↔ 1 / 2 ≤ (1 / 2 : ℚ))) ∧
        (([0, 1] : List ℚ).getD i 0 = 1 →
          ((calculate_model_confidence [0, 1] (1 / 2)).getD i 0 = 1 ↔ (1 / 2 : ℚ) ≤ 1 / 2))) :=
  ⟨by norm_num, by norm_num,
    calculate_model_confidence_spec [0, 1] (1 / 2) (by norm_num) (by norm_num)⟩

/-! ### C6: confusion matrix shape and total count -/

lemma countP_four_partition :
    ∀ l : List (Bool × Bool),
      l.countP (fun z => !z.1 && !z.2) + l.countP (fun z => !z.1 && z.2) +
        l.countP (fun z => z.1 && !z.2) + l.countP (fun z => z.1 && z.2) = l.length := by
  intro l
  induction l with
  | nil => rfl
  | cons a l ih =>
    rcases a with ⟨b, c⟩
    cases b <;> cases c <;> simp [List.countP_cons] <;> omega

/-- C6 (amended): for equal-length binary label/prediction lists in which both
classes appear somewhere in the union of the two lists, the confusion matrix is
2×2 with `matrix[0] = [tn, fp]`, `matrix[1] = [fn, tp]`, and the four counts
sum to the number of samples; when only one value appears in the union, sklearn
produces a 1×1 matrix and the function raises instead of returning. -/
theorem calculate_confusion_matrix_spec (yt yp : List Bool)
    (hlen : yt.length = yp.length)
    (hF : false ∈ yt ∨ false ∈ yp) (hT : true ∈ yt ∨ true ∈ yp) :
    ∃ c, calculate_confusion_matrix yt yp = .ok c ∧
      c.matrix = [[c.true_negatives, c.false_positives],
                  [c.false_negatives, c.true_positives]] ∧
      c.true_negatives + c.false_positives + c.false_negatives + c.true_positives =
        yt.length := by
  have hF' : (yt.contains false || yp.contains false) = true := by
    rcases hF with h | h <;> simp [List.contains, List.elem_iff, h]
  have hT' : (yt.contains true || yp.contains true) = true := by
    rcases hT with h | h <;> simp [List.contains, List.elem_iff, h]
  have hcm : sk_confusion_matrix yt yp =
      [[(yt.zip yp).countP fun z => !z.1 && !z.2,
        (yt.zip yp).countP fun z => !z.1 && z.2],
       [(yt.zip yp).countP fun z => z.1 && !z.2,
        (yt.zip yp).countP fun z => z.1 && z.2]] := by
    simp only [sk_confusion_matrix, hF', hT']
  have hok : calculate_confusion_matrix yt yp =
      .ok ⟨[[(yt.zip yp).countP fun z => !z.1 && !z.2,
             (yt.zip yp).countP fun z => !z.1 && z.2],
            [(yt.zip yp).countP fun z => z.1 && !z.2,
             (yt.zip yp).countP fun z => z.1 && z.2]],
           (yt.zip yp).countP fun z => !z.1 && !z.2,
           (yt.zip yp).countP fun z => !z.1 && z.2,
           (yt.zip yp).countP fun z => z.1 && !z.2,
           (yt.zip yp).countP fun z => z.1 && z.2⟩ := by
    simp [calculate_confusion_matrix, hcm]
  refine ⟨_, hok, rfl, ?_⟩
  have := countP_four_partition (yt.zip yp)
  rw [List.length_zip, hlen, min_self, ← hlen] at this
  simpa using this

/-- Counterexample to C6 as stated: on the binary input `y_true = [0]`,
`y_pred = [0]` only one class appears, sklearn's matrix is 1×1, and
`calculate_confusion_matrix` raises instead of returning. -/
theorem calculate_confusion_matrix_counterexample :
    calculate_confusion_matrix [false] [false] =
      .error "Expected 2x2 confusion matrix" := by
  rfl

/-- Witness for C6 at concrete input. -/
theorem calculate_confusion_matrix_witness :
    ([false, true] : List Bool).length = ([false, false] : List Bool).length ∧
      (false ∈ ([false, true] : List Bool) ∨ false ∈ ([false, false] : List Bool)) ∧
      (true ∈ ([false, true] : List Bool) ∨ true ∈ ([false, false] : List Bool)) ∧
      (∃ c, calculate_confusion_matrix [false, true] [false, false] = .ok c ∧
        c.matrix = [[c.true_negatives, c.false_positives],
                    [c.false_negatives, c.true_positives]] ∧
        c.true_negatives + c.false_positives + c.false_negatives + c.true_positives =
          ([false, true] : List Bool).length) :=
  ⟨rfl, Or.inl (by simp), Or.inl (by simp),
    calculate_confusion_matrix_spec [false, true] [false, false] rfl
      (Or.inl (by simp)) (Or.inl (by simp))⟩

/-! ### C8: categorical encode/decode round trip (`shared/logic/preprocessing.py`) -/

/-- Mirror of `HOME_OWNERSHIP_MAP`. -/
def HOME_OWNERSHIP_MAP : List (String × ℕ) :=
  [("RENT", 0), ("OWN", 1), ("MORTGAGE", 2), ("OTHER", 3)]

/-- Mirror of `LOAN_INTENT_MAP`. -/
def LOAN_INTENT_MAP : List (String × ℕ) :=
  [("EDUCATION", 0), ("MEDICAL", 1), ("VENTURE", 2), ("PERSONAL", 3),
   ("DEBTCONSOLIDATION", 4), ("HOMEIMPROVEMENT", 5)]

/-- Mirror of `LOAN_GRADE_MAP`. -/
def LOAN_GRADE_MAP : List (String × ℕ) :=
  [("A", 0), ("B", 1), ("C", 2), ("D", 3), ("E", 4), ("F", 5), ("G", 6)]

/-- Mirror of `DEFAULT_ON_FILE_MAP`. -/
def DEFAULT_ON_FILE_MAP : List (String × ℕ) :=
  [("N", 0), ("Y", 1)]

/-- Shared encoding loop of the four `encode_*` functions: look the value up in
the field's map, raising `ValueError` at the first unknown value. -/
def encodeWithMap (m : List (String × ℕ)) (field : String) :
    List String → Except String (List ℕ)
  | [] => .ok []
  | v :: vs =>
    match m.lookup v with
    | some n =>
      match encodeWithMap m field vs with
      | .ok ns => .ok (n :: ns)
      | .error e => .error e
    | none => .error ("Unknown " ++ field ++ " value: " ++ v)

/-- Embedding of `encode_home_ownership`. -/
def encode_home_ownership : List String → Except String (List ℕ) :=
  encodeWithMap HOME_OWNERSHIP_MAP "home_ownership"

/-- Embedding of `encode_loan_intent`. -/
def encode_loan_intent : List String → Except String (List ℕ) :=
  encodeWithMap LOAN_INTENT_MAP "loan_intent"

/-- Embedding of `encode_loan_grade`. -/
def encode_loan_grade : List String → Except String (List ℕ) :=
  encodeWithMap LOAN_GRADE_MAP "loan_grade"

/-- Embedding of `encode_default_on_file`. -/
def encode_default_on_file : List String → Except String (List ℕ) :=
  encodeWithMap DEFAULT_ON_FILE_MAP "default_on_file"

/-- Reverse of a field map (`{v: k for k, v in MAP.items()}`; all map values
are distinct, so first-match lookup agrees with the Python dict). -/
def reverseMap (m : List (String × ℕ)) : List (ℕ × String) :=
  m.map fun p => (p.2, p.1)

/-- Shared decoding loop of the `decode_*` functions; an integer outside the
reverse map raises `KeyError`, modelled as `none`. -/
def decodeWithMap (m : List (String × ℕ)) : List ℕ → Option (List String)
  | [] => some []
  | n :: ns =>
    match (reverseMap m).lookup n with
    | some s =>
      match decodeWithMap m ns with
      | some ss => some (s :: ss)
      | none => none
    | none => none

/-- Embedding of `decode_home_ownership`. -/
def decode_home_ownership : List ℕ → Option (List String) :=
  decodeWithMap HOME_OWNERSHIP_MAP

/-- Embedding of `decode_loan_intent`. -/
def decode_loan_intent : List ℕ → Option (List String) :=
  decodeWithMap LOAN_INTENT_MAP

/-- Embedding of `decode_loan_grade`. -/
def decode_loan_grade : List ℕ → Option (List String) :=
  decodeWithMap LOAN_GRADE_MAP

/-- Modelled from the spec: the repository defines no `decode_default_on_file`
(only the other three categorical fields have decoders in
`shared/logic/preprocessing.py`); the spec requires `decode` to be the exact
inverse of `encode` for every field, so the prior-default decoder is the
reverse-map lookup of `DEFAULT_ON_FILE_MAP`, like the three source decoders. -/
def decode_default_on_file : List ℕ → Option (List String) :=
  decodeWithMap DEFAULT_ON_FILE_MAP

lemma pair_mem_of_lookup {α β : Type} [BEq α] [LawfulBEq α] :
    ∀ {l : List (α × β)} {a : α} {b : β}, l.lookup a = some b → (a, b) ∈ l := by
  intro l
  induction l with
  | nil => intro a b h; simp [List.lookup] at h
  | cons p l ih =>
    rcases p with ⟨k, v⟩
    intro a b h
    rw [List.lookup_cons] at h
    by_cases hk : a = k
    · subst hk
      simp only [beq_self_eq_true] at h
      injection h with h
      subst h
      exact List.mem_cons_self _ _
    · simp only [beq_eq_false_iff_ne.mpr hk] at h
      exact List.mem_cons_of_mem _ (ih h)

lemma lookup_reverse_of_lookup :
    ∀ {m : List (String × ℕ)}, (m.map Prod.snd).Nodup →
      ∀ {s : String} {n : ℕ}, m.lookup s = some n →
        (reverseMap m).lookup n = some s := by
  intro m
  induction m with
  | nil => intro _ s n h; simp [List.lookup] at h
  | cons p m ih =>
    rcases p with ⟨k, v⟩
    intro hm s n h
    rw [List.map_cons, List.nodup_cons] at hm
    rw [List.lookup_cons] at h
    by_cases hs : s = k
    · subst hs
      simp only [beq_self_eq_true] at h
      injection h with h
      subst h
      simp [reverseMap, List.lookup_cons]
    · simp only [beq_eq_false_iff_ne.mpr hs] at h
      have hrec := ih hm.2 h
      have hvm : n ∈ m.map Prod.snd :=
        List.mem_map.mpr ⟨(s, n), pair_mem_of_lookup h, rfl⟩
      have hnv : n ≠ v := fun hh => hm.1 (hh ▸ hvm)
      simp only [reverseMap, List.map_cons, List.lookup_cons,
        beq_eq_false_iff_ne.mpr hnv]
      exact hrec

lemma encode_decode_roundtrip_map (m : List (String × ℕ)) (field : String)
    (hm : (m.map Prod.snd).Nodup) :
    ∀ xs : List String, (∀ x ∈ xs, (m.lookup x).isSome) →
      ∃ es, encodeWithMap m field xs = .ok es ∧ decodeWithMap m es = some xs := by
  intro xs
  induction xs with
  | nil => exact fun _ => ⟨[], rfl, rfl⟩
  | cons v vs ih =>
    intro hall
    obtain ⟨n, hn⟩ := Option.isSome_iff_exists.mp (hall v (List.mem_cons_self v vs))
    obtain ⟨es, he, hd⟩ := ih fun x hx => hall x (List.mem_cons_of_mem _ hx)
    refine ⟨n :: es, ?_, ?_⟩
    · simp [encodeWithMap, hn, he]
    · simp [decodeWithMap, lookup_reverse_of_lookup hm hn, hd]

/-- C8: for every list of category values inside the fixed vocabulary of a
categorical field (home ownership, loan intent, loan grade, prior-default
flag), decoding the encoded integers returns the original values exactly:
`decode(encode(x)) == x`.  (The prior-default decoder is modelled from the
spec, as the repository defines no `decode_default_on_file`.) -/
theorem encode_decode_roundtrips :
    (∀ xs : List String, (∀ x ∈ xs, (HOME_OWNERSHIP_MAP.lookup x).isSome) →
      ∃ es, encode_home_ownership xs = .ok es ∧ decode_home_ownership es = some xs) ∧
    (∀ xs : List String, (∀ x ∈ xs, (LOAN_INTENT_MAP.lookup x).isSome) →
      ∃ es, encode_loan_intent xs = .ok es ∧ decode_loan_intent es = some xs) ∧
    (∀ xs : List String, (∀ x ∈ xs, (LOAN_GRADE_MAP.lookup x).isSome) →
      ∃ es, encode_loan_grade xs = .ok es ∧ decode_loan_grade es = some xs) ∧
    (∀ xs : List String, (∀ x ∈ xs, (DEFAULT_ON_FILE_MAP.lookup x).isSome) →
      ∃ es, encode_default_on_file xs = .ok es ∧ decode_default_on_file es = some xs) :=
  ⟨fun xs h => encode_decode_roundtrip_map HOME_OWNERSHIP_MAP "home_ownership" (by decide) xs h,
   fun xs h => encode_decode_roundtrip_map LOAN_INTENT_MAP "loan_intent" (by decide) xs h,
   fun xs h => encode_decode_roundtrip_map LOAN_GRADE_MAP "loan_grade" (by decide) xs h,
   fun xs h => encode_decode_roundtrip_map DEFAULT_ON_FILE_MAP "default_on_file" (by decide) xs h⟩

/-- Witness for C8 at concrete vocabulary values of each field. -/
theorem encode_decode_roundtrips_witness :
    ((∀ x ∈ (["RENT", "OWN"] : List String), (HOME_OWNERSHIP_MAP.lookup x).isSome) ∧
      ∃ es, encode_home_ownership ["RENT", "OWN"] = .ok es ∧
        decode_home_ownership es = some ["RENT", "OWN"]) ∧
    ((∀ x ∈ (["MEDICAL"] : List String), (LOAN_INTENT_MAP.lookup x).isSome) ∧
      ∃ es, encode_loan_intent ["MEDICAL"] = .ok es ∧
        decode_loan_intent es = some ["MEDICAL"]) ∧
    ((∀ x ∈ (["A", "G"] : List String), (LOAN_GRADE_MAP.lookup x).isSome) ∧
      ∃ es, encode_loan_grade ["A", "G"] = .ok es ∧
        decode_loan_grade es = some ["A", "G"]) ∧
    ((∀ x ∈ (["N", "Y"] : List String), (DEFAULT_ON_FILE_MAP.lookup x).isSome) ∧
      ∃ es, encode_default_on_file ["N", "Y"] = .ok es ∧
        decode_default_on_file es = some ["N", "Y"]) :=
  ⟨⟨by decide, encode_decode_roundtrips.1 ["RENT", "OWN"] (by decide)⟩,
   ⟨by decide, encode_decode_roundtrips.2.1 ["MEDICAL"] (by decide)⟩,
   ⟨by decide, encode_decode_roundtrips.2.2.1 ["A", "G"] (by decide)⟩,
   ⟨by decide, encode_decode_roundtrips.2.2.2 ["N", "Y"] (by decide)⟩⟩

/-! ### C4: validation errors of `find_optimal_threshold` -/

lemma uniqueClassCount_cases (ys : List Bool) (h : ys ≠ []) :
    uniqueClassCount ys = 1 ∨ uniqueClassCount ys = 2 := by
  obtain ⟨b, ys', rfl⟩ := List.exists_cons_of_ne_nil h
  unfold uniqueClassCount
  cases b
  · by_cases hc : true ∈ ys' <;> simp [List.contains_cons, hc]
  · by_cases hc : false ∈ ys' <;> simp [List.contains_cons, hc]

lemma uniqueClassCount_eq_one_iff (ys : List Bool) (h : ys ≠ []) :
    uniqueClassCount ys = 1 ↔ ¬(true ∈ ys ∧ false ∈ ys) := by
  unfold uniqueClassCount
  by_cases hT : true ∈ ys <;> by_cases hF : false ∈ ys
  · have cT : ys.contains true = true := by simp [List.contains, List.elem_iff, hT]
    have cF : ys.contains false = true := by simp [List.contains, List.elem_iff, hF]
    simp [cT, cF, hT, hF]
  · have cT : ys.contains true = true := by simp [List.contains, List.elem_iff, hT]
    have cF : ys.contains false = false := by
      simp [List.contains, List.elem_iff, hF]
    simp [cT, cF, hT, hF]
  · have cT : ys.contains true = false := by simp [List.contains, List.elem_iff, hT]
    have cF : ys.contains false = true := by simp [List.contains, List.elem_iff, hF]
    simp [cT, cF, hT, hF]
  · exfalso
    obtain ⟨b, ys', rfl⟩ := List.exists_cons_of_ne_nil h
    cases b
    · exact hF (List.mem_cons_self _ _)
    · exact hT (List.mem_cons_self _ _)

/-- C4: `find_optimal_threshold` raises the empty-input error exactly when an
input array is empty, the length-mismatch error exactly when both are
non-empty with different lengths, and the degenerate-labels error exactly when
both checks pass but only one class is present; it succeeds in every other
case (the checks run, in that order, before any ROC computation). -/
theorem find_optimal_threshold_errors (ys : List Bool) (ps : List ℚ) :
    (find_optimal_threshold ys ps = .error .emptyInput ↔ ys = [] ∨ ps = []) ∧
    (find_optimal_threshold ys ps = .error .lengthMismatch ↔
      ys ≠ [] ∧ ps ≠ [] ∧ ys.length ≠ ps.length) ∧
    (find_optimal_threshold ys ps = .error .degenerateLabels ↔
      ys ≠ [] ∧ ps ≠ [] ∧ ys.length = ps.length ∧ uniqueClassCount ys = 1) ∧
    ((∃ r, find_optimal_threshold ys ps = .ok r) ↔
      ys ≠ [] ∧ ps ≠ [] ∧ ys.length = ps.length ∧ uniqueClassCount ys = 2) ∧
    (ys ≠ [] → (uniqueClassCount ys = 1 ↔ ¬(true ∈ ys ∧ false ∈ ys))) := by
  by_cases h1 : ys.length = 0 ∨ ps.length = 0
  · have hor : ys = [] ∨ ps = [] := by
      rcases h1 with h | h
      · exact Or.inl (List.length_eq_zero.mp h)
      · exact Or.inr (List.length_eq_zero.mp h)
    have hF : find_optimal_threshold ys ps = .error .emptyInput := by
      rcases hor with rfl | rfl <;> simp [find_optimal_threshold]
    rw [hF]
    refine ⟨⟨fun _ => hor, fun _ => rfl⟩, ?_, ?_, ?_,
      fun hne => uniqueClassCount_eq_one_iff ys hne⟩
    · constructor
      · intro hc; simp at hc
      · rintro ⟨hy, hp, -⟩
        rcases hor with rfl | rfl
        · exact absurd rfl hy
        · exact absurd rfl hp
    · constructor
      · intro hc; simp at hc
      · rintro ⟨hy, hp, -, -⟩
        rcases hor with rfl | rfl
        · exact absurd rfl hy
        · exact absurd rfl hp
    · constructor
      · rintro ⟨r, hr⟩; simp at hr
      · rintro ⟨hy, hp, -, -⟩
        rcases hor with rfl | rfl
        · exact absurd rfl hy
        · exact absurd rfl hp
  · have hys : ys ≠ [] := fun hh => h1 (Or.inl (by simp [hh]))
    have hps : ps ≠ [] := fun hh => h1 (Or.inr (by simp [hh]))
    by_cases h2 : ys.length = ps.length
    · by_cases h3 : uniqueClassCount ys = 1
      · have hF : find_optimal_threshold ys ps = .error .degenerateLabels := by
          simp [find_optimal_threshold, hys, hps, h2, h3]
        rw [hF]
        refine ⟨?_, ?_, ⟨fun _ => ⟨hys, hps, h2, h3⟩, fun _ => rfl⟩,
          ?_, fun hne => uniqueClassCount_eq_one_iff ys hne⟩
        · constructor
          · intro hc; simp at hc
          · rintro (rfl | rfl)
            · exact absurd rfl hys
            · exact absurd rfl hps
        · constructor
          · intro hc; simp at hc
          · rintro ⟨-, -, hll⟩; exact absurd h2 hll
        · constructor
          · rintro ⟨r, hr⟩; simp at hr
          · rintro ⟨-, -, -, h2c⟩; omega
      · have hF : find_optimal_threshold ys ps = .ok (findOptimalCore ys ps) := by
          simp [find_optimal_threshold, hys, hps, h2, h3]
        rw [hF]
        have h2c : uniqueClassCount ys = 2 :=
          (uniqueClassCount_cases ys hys).resolve_left h3
        refine ⟨?_, ?_, ?_,
          ⟨fun _ => ⟨hys, hps, h2, h2c⟩, fun _ => ⟨findOptimalCore ys ps, rfl⟩⟩,
          fun hne => uniqueClassCount_eq_one_iff ys hne⟩
        · constructor
          · intro hc; simp at hc
          · rintro (rfl | rfl)
            · exact absurd rfl hys
            · exact absurd rfl hps
        · constructor
          · intro hc; simp at hc
          · rintro ⟨-, -, hll⟩; exact absurd h2 hll
        · constructor
          · intro hc; simp at hc
          · rintro ⟨-, -, -, h1c⟩; exact absurd h1c h3
    · have hF : find_optimal_threshold ys ps = .error .lengthMismatch := by
        simp [find_optimal_threshold, hys, hps, h2]
      rw [hF]
      refine ⟨?_, ⟨fun _ => ⟨hys, hps, h2⟩, fun _ => rfl⟩, ?_, ?_,
        fun hne => uniqueClassCount_eq_one_iff ys hne⟩
      · constructor
        · intro hc; simp at hc
        · rintro (rfl | rfl)
          · exact absurd rfl hys
          · exact absurd rfl hps
      · constructor
        · intro hc; simp at hc
        · rintro ⟨-, -, hll, -⟩; exact absurd hll h2
      · constructor
        · rintro ⟨r, hr⟩; simp at hr
        · rintro ⟨-, -, hll, -⟩; exact absurd hll h2

/-! ### C1: lemmas on `argmaxFirst`, sorted distinct values and masks -/

lemma getD_mem_of_lt {α : Type} (l : List α) (j : ℕ) (d : α) (h : j < l.length) :
    l.getD j d ∈ l := by
  induction l generalizing j with
  | nil => simp at h
  | cons a l ih =>
    cases j with
    | zero => simp
    | succ j =>
      simp only [List.getD_cons_succ]
      exact List.mem_cons_of_mem _ (ih _ (by simpa using h))

lemma mem_le_argmaxFirst : ∀ (l : List ℚ), ∀ y ∈ l, y ≤ l.getD (argmaxFirst l) 0 := by
  intro l
  induction l with
  | nil => intro y hy; cases hy
  | cons x xs ih =>
    intro y hy
    by_cases h : ∀ z ∈ xs, z ≤ x
    · simp only [argmaxFirst, if_pos h, List.getD_cons_zero]
      rcases List.mem_cons.mp hy with rfl | hy'
      · exact le_rfl
      · exact h y hy'
    · have h' := h
      push_neg at h'
      obtain ⟨z, hz, hxz⟩ := h'
      simp only [argmaxFirst, if_neg h, List.getD_cons_succ]
      rcases List.mem_cons.mp hy with rfl | hy'
      · exact le_trans (le_of_lt hxz) (ih z hz)
      · exact ih y hy'

lemma getD_le_argmaxFirst (l : List ℚ) (i : ℕ) (hi : i < l.length) :
    l.getD i 0 ≤ l.getD (argmaxFirst l) 0 :=
  mem_le_argmaxFirst l _ (getD_mem_of_lt l i 0 hi)

lemma getD_lt_argmaxFirst : ∀ (l : List ℚ) (i : ℕ), i < argmaxFirst l →
    l.getD i 0 < l.getD (argmaxFirst l) 0 := by
  intro l
  induction l with
  | nil => intro i hi; simp [argmaxFirst] at hi
  | cons x xs ih =>
    intro i hi
    by_cases h : ∀ z ∈ xs, z ≤ x
    · simp [argmaxFirst, if_pos h] at hi
    · have h' := h
      push_neg at h'
      obtain ⟨z, hz, hxz⟩ := h'
      simp only [argmaxFirst, if_neg h] at hi ⊢
      simp only [List.getD_cons_succ]
      cases i with
      | zero =>
        simp only [List.getD_cons_zero]
        exact lt_of_lt_of_le hxz (mem_le_argmaxFirst xs z hz)
      | succ j =>
        simp only [List.getD_cons_succ]
        exact ih j (by omega)

lemma argmaxFirst_lt_length : ∀ (l : List ℚ), l ≠ [] → argmaxFirst l < l.length := by
  intro l
  induction l with
  | nil => intro h; exact absurd rfl h
  | cons x xs ih =>
    intro _
    by_cases h : ∀ y ∈ xs, y ≤ x
    · simp only [argmaxFirst, List.length_cons]
      rw [if_pos h]
      omega
    · have hxs : xs ≠ [] := by
        intro hh
        subst hh
        exact h (by intro y hy; cases hy)
      simp only [argmaxFirst, if_neg h, List.length_cons]
      have := ih hxs
      omega

lemma mem_insertDescDistinct {α : Type} [LinearOrder α] (x a : α) :
    ∀ l : List α, a ∈ insertDescDistinct x l ↔ a = x ∨ a ∈ l := by
  intro l
  induction l with
  | nil => simp [insertDescDistinct]
  | cons y ys ih =>
    unfold insertDescDistinct
    split_ifs with h1 h2
    · simp [List.mem_cons]
    · subst h2
      simp only [List.mem_cons]
      tauto
    · simp only [List.mem_cons, ih]
      tauto

lemma pairwise_insertDescDistinct {α : Type} [LinearOrder α] (x : α) :
    ∀ l : List α, l.Pairwise (· > ·) → (insertDescDistinct x l).Pairwise (· > ·) := by
  intro l
  induction l with
  | nil => intro _; simp [insertDescDistinct]
  | cons y ys ih =>
    intro hp
    rw [List.pairwise_cons] at hp
    obtain ⟨hy, hys⟩ := hp
    by_cases h1 : y < x
    · simp only [insertDescDistinct, if_pos h1]
      rw [List.pairwise_cons]
      refine ⟨?_, ?_⟩
      · intro z hz
        rcases List.mem_cons.mp hz with rfl | hz'
        · exact h1
        · exact lt_trans (hy z hz') h1
      · rw [List.pairwise_cons]
        exact ⟨hy, hys⟩
    · by_cases h2 : x = y
      · simp only [insertDescDistinct, if_neg h1, if_pos h2]
        rw [List.pairwise_cons]
        exact ⟨hy, hys⟩
      · simp only [insertDescDistinct, if_neg h1, if_neg h2]
        rw [List.pairwise_cons]
        refine ⟨?_, ih hys⟩
        intro z hz
        rcases (mem_insertDescDistinct x z ys).mp hz with rfl | hz'
        · exact lt_of_le_of_ne (not_lt.mp h1) h2
        · exact hy z hz'

lemma insertDescDistinct_ne_nil {α : Type} [LinearOrder α] (x : α) (l : List α) :
    insertDescDistinct x l ≠ [] := by
  cases l with
  | nil => simp [insertDescDistinct]
  | cons y ys =>
    unfold insertDescDistinct
    split_ifs <;> simp

lemma distinctDesc_pairwise {α : Type} [LinearOrder α] (l : List α) :
    (distinctDesc l).Pairwise (· > ·) := by
  induction l with
  | nil => simp [distinctDesc]
  | cons x xs ih => exact pairwise_insertDescDistinct x _ ih

lemma mem_distinctDesc {α : Type} [LinearOrder α] (l : List α) (a : α) :
    a ∈ distinctDesc l ↔ a ∈ l := by
  induction l with
  | nil => simp [distinctDesc]
  | cons x xs ih =>
    show a ∈ insertDescDistinct x (distinctDesc xs) ↔ _
    rw [mem_insertDescDistinct, ih, List.mem_cons]

lemma distinctDesc_ne_nil {α : Type} [LinearOrder α] {l : List α} (h : l ≠ []) :
    distinctDesc l ≠ [] := by
  obtain ⟨x, xs, rfl⟩ := List.exists_cons_of_ne_nil h
  exact insertDescDistinct_ne_nil x _

lemma filterByMask_sublist {α : Type} : ∀ (m : List Bool) (l : List α),
    List.Sublist (filterByMask m l) l := by
  intro m
  induction m with
  | nil =>
    intro l
    simp only [filterByMask, List.zip_nil_left, List.filterMap_nil]
    exact List.nil_sublist l
  | cons b m ih =>
    intro l
    cases l with
    | nil => simp [filterByMask]
    | cons x l =>
      cases b
      · have e : filterByMask (false :: m) (x :: l) = filterByMask m l := rfl
        rw [e]
        exact (ih l).cons x
      · have e : filterByMask (true :: m) (x :: l) = x :: filterByMask m l := rfl
        rw [e]
        exact (ih l).cons₂ x

lemma filterByMask_map {α β : Type} (f : α → β) : ∀ (m : List Bool) (l : List α),
    filterByMask m (l.map f) = (filterByMask m l).map f := by
  intro m
  induction m with
  | nil => intro l; simp [filterByMask]
  | cons b m ih =>
    intro l
    cases l with
    | nil => simp [filterByMask]
    | cons x l =>
      cases b
      · show filterByMask m (l.map f) = _
        rw [ih l]
        rfl
      · show f x :: filterByMask m (l.map f) = _
        rw [ih l]
        rfl

lemma getLastD_congr {α : Type} : ∀ (l : List α), l ≠ [] → ∀ (d₁ d₂ : α),
    l.getLastD d₁ = l.getLastD d₂ := by
  intro l h d₁ d₂
  cases l with
  | nil => exact absurd rfl h
  | cons b l => rw [List.getLastD_cons, List.getLastD_cons]

lemma getLastD_map {α β : Type} (f : α → β) : ∀ (l : List α) (d : α),
    (l.map f).getLastD (f d) = f (l.getLastD d) := by
  intro l
  induction l with
  | nil => intro d; rfl
  | cons a l ih =>
    intro d
    simp only [List.map_cons, List.getLastD_cons]
    exact ih a

lemma getLastD_mem {α : Type} : ∀ (l : List α) (d : α), l ≠ [] → l.getLastD d ∈ l := by
  intro l
  induction l with
  | nil => intro d h; exact absurd rfl h
  | cons a l ih =>
    intro d _
    cases l with
    | nil => simp
    | cons b l' =>
      rw [List.getLastD_cons]
      exact List.mem_cons_of_mem _ (ih a (by simp))

lemma filterByMask_getLast {α : Type} : ∀ (m : List Bool) (l : List α) (d : α),
    m.length = l.length → m.getLastD false = true → l ≠ [] →
    filterByMask m l ≠ [] ∧ (filterByMask m l).getLastD d = l.getLastD d := by
  intro m
  induction m with
  | nil =>
    intro l d hlen _ hne
    cases l with
    | nil => exact absurd rfl hne
    | cons x l => simp at hlen
  | cons b m ih =>
    intro l d hlen hlast hne
    cases l with
    | nil => simp at hlen
    | cons x l =>
      cases l with
      | nil =>
        have hm : m = [] := by
          cases m with
          | nil => rfl
          | cons c m' => simp at hlen
        subst hm
        have hb : b = true := by simpa [List.getLastD_cons] using hlast
        subst hb
        exact ⟨by simp [filterByMask], rfl⟩
      | cons y l' =>
        have hm : m ≠ [] := by
          intro hh
          subst hh
          simp at hlen
        have hlast' : m.getLastD false = true := by
          rw [List.getLastD_cons] at hlast
          rw [getLastD_congr m hm false b]
          exact hlast
        obtain ⟨hne', heq⟩ := ih (y :: l') d (by simpa using hlen) hlast' (by simp)
        cases b
        · have e : filterByMask (false :: m) (x :: y :: l') = filterByMask m (y :: l') := rfl
          refine ⟨by rw [e]; exact hne', ?_⟩
          rw [e, heq]
          nth_rewrite 2 [List.getLastD_cons]
          exact getLastD_congr (y :: l') (by simp) d x
        · have e : filterByMask (true :: m) (x :: y :: l') =
              x :: filterByMask m (y :: l') := rfl
          refine ⟨by rw [e]; simp, ?_⟩
          rw [e, List.getLastD_cons, List.getLastD_cons]
          calc (filterByMask m (y :: l')).getLastD x
              = (filterByMask m (y :: l')).getLastD d := getLastD_congr _ hne' x d
            _ = (y :: l').getLastD d := heq
            _ = (y :: l').getLastD x := getLastD_congr _ (by simp) d x

lemma getLastD_concat_val {α : Type} (a : α) : ∀ (l : List α) (d : α),
    (l ++ [a]).getLastD d = a := by
  intro l
  induction l with
  | nil => intro d; rfl
  | cons b l ih =>
    intro d
    rw [List.cons_append, List.getLastD_cons]
    exact ih b

lemma getLastD_range_map (f : ℕ → Bool) (k : ℕ) :
    ((List.range (k + 1)).map f).getLastD false = f k := by
  rw [List.range_succ, List.map_append, List.map_cons, List.map_nil]
  exact getLastD_concat_val (f k) _ false

lemma keepMask_getLast (fps tps : List ℕ) (h : fps ≠ []) :
    (keepMask fps tps).getLastD false = true := by
  obtain ⟨k, hk⟩ : ∃ k, fps.length = k + 1 := by
    cases fps with
    | nil => exact absurd rfl h
    | cons a l => exact ⟨l.length, rfl⟩
  unfold keepMask
  rw [hk, getLastD_range_map]
  simp

lemma getD_zipWith_sub : ∀ (l₁ l₂ : List ℚ) (i : ℕ), i < l₁.length → i < l₂.length →
    (List.zipWith (fun a b => a - b) l₁ l₂).getD i 0 = l₁.getD i 0 - l₂.getD i 0 := by
  intro l₁
  induction l₁ with
  | nil => intro l₂ i hi _; simp at hi
  | cons a l₁ ih =>
    intro l₂ i h1 h2
    cases l₂ with
    | nil => simp at h2
    | cons b l₂ =>
      cases i with
      | zero => simp
      | succ j =>
        simp only [List.zipWith_cons_cons, List.getD_cons_succ]
        exact ih l₂ j (by simpa using h1) (by simpa using h2)

lemma getLastD_le_of_pairwise : ∀ (l : List ℚ), l.Pairwise (· > ·) →
    ∀ x ∈ l, l.getLastD 0 ≤ x := by
  intro l
  induction l with
  | nil => intro _ x hx; cases hx
  | cons a l ih =>
    intro hp x hx
    rw [List.pairwise_cons] at hp
    cases l with
    | nil =>
      rcases List.mem_cons.mp hx with rfl | hmem
      · simp
      · cases hmem
    | cons b l' =>
      rw [List.getLastD_cons, getLastD_congr (b :: l') (by simp) a 0]
      rcases List.mem_cons.mp hx with rfl | hmem
      · exact le_of_lt (hp.1 _ (getLastD_mem (b :: l') 0 (by simp)))
      · exact ih hp.2 x hmem

/-- Shape of `rocPoints`: the kept thresholds `ks` are non-empty, strictly
descending values of `ps` ending at the minimum score, and the cumulative
count lists are the prediction counts at each kept threshold. -/
lemma rocPoints_spec (ys : List Bool) (ps : List ℚ) (hps : ps ≠ []) :
    ∃ ks : List ℚ,
      rocPoints ys ps = (ks.map (fun s => fpCount ys ps s),
        ks.map (fun s => tpCount ys ps s), ks) ∧
      ks.Pairwise (· > ·) ∧ ks ≠ [] ∧
      (∀ p ∈ ps, ks.getLastD 0 ≤ p) ∧ ks.getLastD 0 ∈ ps := by
  have hds := distinctDesc_ne_nil hps
  have hdp := distinctDesc_pairwise (α := ℚ) ps
  by_cases hlen : 2 < (distinctDesc ps).length
  · have hlenm : (rocMask ys ps).length = (distinctDesc ps).length := by
      simp [rocMask, keepMask]
    have hmapne : (distinctDesc ps).map (fun s => fpCount ys ps s) ≠ [] := by
      simpa using hds
    have hlast := keepMask_getLast ((distinctDesc ps).map fun s => fpCount ys ps s)
      ((distinctDesc ps).map fun s => tpCount ys ps s) hmapne
    obtain ⟨hne', heq⟩ := filterByMask_getLast (rocMask ys ps) (distinctDesc ps)
      0 hlenm hlast hds
    refine ⟨filterByMask (rocMask ys ps) (distinctDesc ps), ?_, ?_, hne', ?_, ?_⟩
    · rw [rocPoints, if_pos hlen, filterByMask_map, filterByMask_map]
    · exact List.Pairwise.sublist (filterByMask_sublist _ _) hdp
    · intro p hp
      rw [heq]
      exact getLastD_le_of_pairwise _ hdp p ((mem_distinctDesc ps p).mpr hp)
    · rw [heq]
      exact (mem_distinctDesc ps _).mp (getLastD_mem _ 0 hds)
  · refine ⟨distinctDesc ps, ?_, hdp, hds, ?_, ?_⟩
    · rw [rocPoints, if_neg hlen]
    · intro p hp
      exact getLastD_le_of_pairwise _ hdp p ((mem_distinctDesc ps p).mpr hp)
    · exact (mem_distinctDesc ps _).mp (getLastD_mem _ 0 hds)

lemma countP_ge_all (t : ℚ) : ∀ (l : List (Bool × ℚ)), (∀ yp ∈ l, t ≤ yp.2) →
    l.countP (fun yp => yp.1 && decide (t ≤ yp.2)) = l.countP (fun yp => yp.1) := by
  intro l
  induction l with
  | nil => intro _; rfl
  | cons a l ih =>
    intro h
    rw [List.countP_cons, List.countP_cons,
      ih fun yp hyp => h yp (List.mem_cons_of_mem _ hyp)]
    have ha := h a (List.mem_cons_self _ _)
    simp [ha]

/-- C1 (amended): with both classes present, `find_optimal_threshold` picks the
ROC point whose Youden's J is maximal, ties broken by first occurrence — which
is the highest associated threshold, since the threshold array is `+inf`
followed by strictly decreasing finite values; a non-finite chosen threshold
falls back to 1/2 (and tpr/fpr/J are exact rationals here, so the non-finite
coercions are vacuous); precision is recomputed from predictions thresholded
at the chosen value, but F1 is computed from that precision and the ROC-curve
tpr at the chosen index: it equals the fully recomputed F1 whenever the chosen
threshold is finite, while under the fallback the index-0 tpr = 0 forces
`f1_score = 0` regardless of the predictions at 1/2. -/
theorem find_optimal_threshold_spec (ys : List Bool) (ps : List ℚ)
    (hlen : ys.length = ps.length) (hT : true ∈ ys) (hF : false ∈ ys) :
    ∃ r, find_optimal_threshold ys ps = .ok r ∧
      (∀ i, i < (youdenList ys ps).length →
        (youdenList ys ps).getD i 0 ≤ (youdenList ys ps).getD (optimalIdx ys ps) 0) ∧
      (∀ i, i < optimalIdx ys ps →
        (youdenList ys ps).getD i 0 < (youdenList ys ps).getD (optimalIdx ys ps) 0) ∧
      optimalIdx ys ps < (youdenList ys ps).length ∧
      (∃ rest : List ℚ, rocThList ys ps = none :: rest.map some ∧
        rest.Pairwise (· > ·)) ∧
      ((rocThList ys ps).getD (optimalIdx ys ps) none = none → r.threshold = 1 / 2) ∧
      (∀ t : ℚ, (rocThList ys ps).getD (optimalIdx ys ps) none = some t →
        r.threshold = t) ∧
      r.sensitivity = (rocTprList ys ps).getD (optimalIdx ys ps) 0 ∧
      r.specificity = 1 - (rocFprList ys ps).getD (optimalIdx ys ps) 0 ∧
      r.youden_j = (youdenList ys ps).getD (optimalIdx ys ps) 0 ∧
      r.precision = metric_precision ys ps r.threshold ∧
      ((rocThList ys ps).getD (optimalIdx ys ps) none ≠ none →
        r.f1_score = metric_f1 ys ps r.threshold) ∧
      ((rocThList ys ps).getD (optimalIdx ys ps) none = none → r.f1_score = 0) := by
  have hys : ys ≠ [] := by intro hh; subst hh; cases hT
  have hps : ps ≠ [] := by
    intro hh
    subst hh
    have h0 : ys.length = 0 := by simpa using hlen
    exact hys (List.length_eq_zero.mp h0)
  obtain ⟨ks, hpts, hkp, hkne, hkmin, hkmem⟩ := rocPoints_spec ys ps hps
  have hmapne : ∀ f : ℚ → ℕ, ks.map f ≠ [] := by
    intro f hh
    exact hkne (by simpa using hh)
  have hfpr : rocFprList ys ps =
      0 :: (ks.map fun s => fpCount ys ps s).map
        (fun c : ℕ => (c : ℚ) / (((ks.map fun s => fpCount ys ps s).getLastD 0 : ℕ) : ℚ)) := by
    simp only [rocFprList, roc_curve, hpts]
  have htpr : rocTprList ys ps =
      0 :: (ks.map fun s => tpCount ys ps s).map
        (fun c : ℕ => (c : ℚ) / (((ks.map fun s => tpCount ys ps s).getLastD 0 : ℕ) : ℚ)) := by
    simp only [rocTprList, roc_curve, hpts]
  have hthl : rocThList ys ps = none :: ks.map some := by
    simp only [rocThList, roc_curve, hpts]
  have hzipmin : ∀ yp ∈ ys.zip ps, ks.getLastD 0 ≤ yp.2 :=
    fun yp hyp => hkmin yp.2 (List.of_mem_zip hyp).2
  have hTD : (ks.map fun s => tpCount ys ps s).getLastD 0 =
      (ys.zip ps).countP (fun yp => yp.1) := by
    rw [getLastD_congr _ (hmapne _) 0 (tpCount ys ps 0),
      getLastD_map (fun s => tpCount ys ps s) ks 0]
    exact countP_ge_all _ _ hzipmin
  have hpos : 0 < (ys.zip ps).countP (fun yp => yp.1) := by
    obtain ⟨q, _, hmem⟩ := exists_pair_of_mem_left hT hlen
    exact List.countP_pos_iff.mpr ⟨(true, q), hmem, rfl⟩
  have hlf : (rocFprList ys ps).length = ks.length + 1 := by rw [hfpr]; simp
  have hlt : (rocTprList ys ps).length = ks.length + 1 := by rw [htpr]; simp
  have hly : (youdenList ys ps).length = ks.length + 1 := by
    rw [youdenList, List.length_zipWith, hlt, hlf, min_self]
  have hyne : youdenList ys ps ≠ [] := by
    intro hh
    rw [hh] at hly
    simp at hly
  have hidx : optimalIdx ys ps < (youdenList ys ps).length :=
    argmaxFirst_lt_length _ hyne
  have hcc : uniqueClassCount ys = 2 := by
    simp [uniqueClassCount, hT, hF]
  have hrecall : ∀ t : ℚ, metric_recall ys ps t =
      (tpCount ys ps t : ℚ) / (((ys.zip ps).countP (fun yp => yp.1) : ℕ) : ℚ) := by
    intro t
    unfold metric_recall
    rw [if_pos (by rw [tpCount_add_fnCount]; exact hpos)]
    congr 1
    rw [← Nat.cast_add, tpCount_add_fnCount]
  refine ⟨findOptimalCore ys ps, ?_, ?_, ?_, hidx, ⟨ks, hthl, hkp⟩,
    ?_, ?_, rfl, rfl, rfl, rfl, ?_, ?_⟩
  · simp [find_optimal_threshold, hys, hps, hlen, hcc]
  · exact fun i hi => getD_le_argmaxFirst _ i hi
  · exact fun i hi => getD_lt_argmaxFirst _ i hi
  · intro h
    show (findOptimalCore ys ps).threshold = 1 / 2
    simp only [findOptimalCore]
    rw [h]
  · intro t ht
    show (findOptimalCore ys ps).threshold = t
    simp only [findOptimalCore]
    rw [ht]
  · intro hne
    obtain ⟨t, ht⟩ := Option.ne_none_iff_exists'.mp hne
    have hnz : optimalIdx ys ps ≠ 0 := by
      intro h0
      rw [hthl, h0] at ht
      simp at ht
    obtain ⟨j, hj⟩ := Nat.exists_eq_succ_of_ne_zero hnz
    have hjlt : j < ks.length := by
      rw [hly] at hidx
      omega
    have htj : t = ks.getD j 0 := by
      rw [hthl, hj, List.getD_cons_succ, getD_map_lt some ks j hjlt none 0] at ht
      exact (Option.some_injective _ ht).symm
    have hthr : (findOptimalCore ys ps).threshold = t := by
      simp only [findOptimalCore]
      rw [ht]
    have htpropt : (rocTprList ys ps).getD (optimalIdx ys ps) 0 =
        metric_recall ys ps t := by
      rw [htpr, hj, List.getD_cons_succ,
        getD_map_lt _ _ j (by simpa using hjlt) 0 0,
        getD_map_lt (fun s => tpCount ys ps s) ks j hjlt 0 0,
        hTD, ← htj, hrecall t]
    have hf1 : (findOptimalCore ys ps).f1_score =
        if 0 < (findOptimalCore ys ps).precision +
            (rocTprList ys ps).getD (optimalIdx ys ps) 0 then
          2 * ((findOptimalCore ys ps).precision *
            ((rocTprList ys ps).getD (optimalIdx ys ps) 0)) /
            ((findOptimalCore ys ps).precision +
              (rocTprList ys ps).getD (optimalIdx ys ps) 0)
        else 0 := rfl
    have hprec : (findOptimalCore ys ps).precision = metric_precision ys ps t := by
      have : (findOptimalCore ys ps).precision =
          metric_precision ys ps (findOptimalCore ys ps).threshold := rfl
      rw [this, hthr]
    rw [hf1, htpropt, hprec, hthr, metric_f1]
  · intro h
    have hidx0 : optimalIdx ys ps = 0 := by
      by_contra hnz
      obtain ⟨j, hj⟩ := Nat.exists_eq_succ_of_ne_zero hnz
      have hjlt : j < ks.length := by
        rw [hly] at hidx
        omega
      rw [hthl, hj, List.getD_cons_succ, getD_map_lt some ks j hjlt none 0] at h
      simp at h
    have htpr0 : (rocTprList ys ps).getD (optimalIdx ys ps) 0 = 0 := by
      rw [hidx0, htpr]
      simp
    have hf1 : (findOptimalCore ys ps).f1_score =
        if 0 < (findOptimalCore ys ps).precision +
            (rocTprList ys ps).getD (optimalIdx ys ps) 0 then
          2 * ((findOptimalCore ys ps).precision *
            ((rocTprList ys ps).getD (optimalIdx ys ps) 0)) /
            ((findOptimalCore ys ps).precision +
              (rocTprList ys ps).getD (optimalIdx ys ps) 0)
        else 0 := rfl
    rw [hf1, htpr0]
    split_ifs with hc
    · simp
    · rfl

/-- Counterexample to C1 as stated: on labels `[1, 0]` with probabilities
`[0.6, 0.8]` every ROC point has J ≤ 0, so `np.argmax` picks index 0, whose
threshold is `+inf`; the 0.5 fallback fires and the function returns
`f1_score = 0` (it multiplies the recomputed precision by the index-0 ROC tpr,
which is 0), while the F1 actually recomputed from predictions thresholded at
the chosen value 0.5 is 2/3. -/
theorem find_optimal_threshold_f1_counterexample :
    find_optimal_threshold [true, false] [3/5, 4/5] = .ok ⟨1/2, 0, 1, 0, 1/2, 0⟩ ∧
    metric_f1 [true, false] [3/5, 4/5] (1/2) = 2/3 ∧ (0 : ℚ) ≠ 2/3 := by
  refine ⟨?_, ?_, by norm_num⟩
  · norm_num [find_optimal_threshold, findOptimalCore, optimalIdx, youdenList,
      rocTprList, rocFprList, rocThList, roc_curve, rocPoints, rocMask,
      distinctDesc, insertDescDistinct, keepMask, filterByMask, argmaxFirst,
      uniqueClassCount, tpCount, fpCount, tnCount, fnCount,
      List.countP_cons, List.countP_nil]
  · norm_num [metric_f1, metric_precision, metric_recall, tpCount, fpCount,
      fnCount, List.countP_cons, List.countP_nil]

/-- Witness for the amended C1 at concrete input. -/
theorem find_optimal_threshold_spec_witness :
    ([false, true] : List Bool).length = ([1/10, 9/10] : List ℚ).length ∧
      true ∈ ([false, true] : List Bool) ∧ false ∈ ([false, true] : List Bool) ∧
      (∃ r, find_optimal_threshold [false, true] [1/10, 9/10] = .ok r ∧
        (∀ i, i < (youdenList [false, true] [1/10, 9/10]).length →
          (youdenList [false, true] [1/10, 9/10]).getD i 0 ≤
            (youdenList [false, true] [1/10, 9/10]).getD
              (optimalIdx [false, true] [1/10, 9/10]) 0) ∧
        (∀ i, i < optimalIdx [false, true] [1/10, 9/10] →
          (youdenList [false, true] [1/10, 9/10]).getD i 0 <
            (youdenList [false, true] [1/10, 9/10]).getD
              (optimalIdx [false, true] [1/10, 9/10]) 0) ∧
        optimalIdx [false, true] [1/10, 9/10] <
          (youdenList [false, true] [1/10, 9/10]).length ∧
        (∃ rest : List ℚ, rocThList [false, true] [1/10, 9/10] =
          none :: rest.map some ∧ rest.Pairwise (· > ·)) ∧
        ((rocThList [false, true] [1/10, 9/10]).getD
            (optimalIdx [false, true] [1/10, 9/10]) none = none →
          r.threshold = 1 / 2) ∧
        (∀ t : ℚ, (rocThList [false, true] [1/10, 9/10]).getD
            (optimalIdx [false, true] [1/10, 9/10]) none = some t →
          r.threshold = t) ∧
        r.sensitivity = (rocTprList [false, true] [1/10, 9/10]).getD
          (optimalIdx [false, true] [1/10, 9/10]) 0 ∧
        r.specificity = 1 - (rocFprList [false, true] [1/10, 9/10]).getD
          (optimalIdx [false, true] [1/10, 9/10]) 0 ∧
        r.youden_j = (youdenList [false, true] [1/10, 9/10]).getD
          (optimalIdx [false, true] [1/10, 9/10]) 0 ∧
        r.precision = metric_precision [false, true] [1/10, 9/10] r.threshold ∧
        ((rocThList [false, true] [1/10, 9/10]).getD
            (optimalIdx [false, true] [1/10, 9/10]) none ≠ none →
          r.f1_score = metric_f1 [false, true] [1/10, 9/10] r.threshold) ∧
        ((rocThList [false, true] [1/10, 9/10]).getD
            (optimalIdx [false, true] [1/10, 9/10]) none = none →
          r.f1_score = 0)) :=
  ⟨rfl, by simp, by simp,
    find_optimal_threshold_spec [false, true] [1/10, 9/10] rfl (by simp) (by simp)⟩

/-- Witness for C4 at concrete inputs: the empty-input error fires on empty
arrays, and a well-formed two-class input succeeds. -/
theorem find_optimal_threshold_errors_witness :
    (find_optimal_threshold [] ([] : List ℚ) = .error .emptyInput) ∧
    (∃ r, find_optimal_threshold [false, true] [1/4, 3/4] = .ok r) :=
  ⟨(find_optimal_threshold_errors [] []).1.mpr (Or.inl rfl),
   ((find_optimal_threshold_errors [false, true] [1/4, 3/4]).2.2.2.1).mpr
     ⟨by decide, by decide, rfl, by decide⟩⟩

/-! ### Feature selection (`shared/logic/feature_selection.py`)

The five selection methods are embedded with their external capabilities
(sklearn/xgboost fits, the shap explainer, `scipy.stats.binom.ppf`, `np.log`)
as injected deterministic functions of an explicit seed, exactly as the source
always passes `random_state` into them.  The feature matrix is column-major
(`X` is the list of feature columns).  Each embedded method additionally takes
an `ambient` parameter standing for the interpreter's global numpy RNG state:
the source never reads it (every random draw goes through
`np.random.RandomState(random_state)`), which is what claim C9's determinism
rests on. -/

/-- Metadata value (the Python dicts hold strings, floats, ints and bools). -/
inductive MVal where
  | str (s : String)
  | rat (q : ℚ)
  | nat (n : ℕ)
  | bool (b : Bool)
deriving DecidableEq, Repr

/-- Mirror of `shared.schemas.feature_selection.FeatureScore`. -/
structure FeatureScore where
  feature_name : String
  score : ℚ
  selected : Bool
  rank : ℕ
  metadata : Option (List (String × MVal))
deriving DecidableEq, Repr

/-- Mirror of `FeatureSelectionResult` (the method enum kept as a string). -/
structure FeatureSelectionResult where
  method : String
  selected_features : List String
  feature_scores : List FeatureScore
  n_selected : ℕ
  n_total : ℕ
  method_metadata : List (String × MVal)
deriving DecidableEq, Repr

/-- Mirror of `TreeImportanceParams`. -/
structure TreeImportanceParams where
  model_type : String
  top_k : Option ℕ
  threshold : Option ℚ
deriving DecidableEq, Repr

/-- Mirror of `LassoParams`. -/
structure LassoParams where
  C : ℚ
  max_iter : ℕ
deriving DecidableEq, Repr

/-- Mirror of `WoeIvParams`. -/
structure WoeIvParams where
  n_bins : ℕ
  iv_threshold : ℚ
deriving DecidableEq, Repr

/-- Mirror of `BorutaParams`. -/
structure BorutaParams where
  n_iterations : ℕ
  confidence_level : ℚ
  include_tentative : Bool
deriving DecidableEq, Repr

/-- Mirror of `ShapParams`. -/
structure ShapParams where
  model_type : String
  sample_size : ℕ
  top_k : Option ℕ
  threshold : Option ℚ
deriving DecidableEq, Repr

/-- Deterministic model of `numpy.random.RandomState`: an abstract state type
with seeding, in-place column shuffling, and without-replacement index
sampling.  All operations are Lean functions, hence deterministic — matching
numpy's PRNG, which is a pure function of its seed. -/
structure RngOps (σ : Type) where
  mkState : ℕ → σ
  shuffle : σ → List ℚ → List ℚ × σ
  choice : σ → ℕ → ℕ → List ℕ × σ

/-- External capabilities used by the feature-selection methods, all
deterministic functions of an explicit seed and their numeric inputs:
random-forest and xgboost importances, the L1 logistic-regression fit
(returning the coefficient row and the iteration count), the tree-SHAP
attributions (column-major, positive class), `scipy.stats.binom.ppf`, and
`np.log`. -/
structure MlCaps where
  rfImportances : ℕ → List (List ℚ) → List Bool → List ℚ
  xgbImportances : ℕ → List (List ℚ) → List Bool → List ℚ
  lassoFit : ℕ → ℚ → ℕ → List (List ℚ) → List Bool → List ℚ × ℕ
  treeShap : ℕ → String → List (List ℚ) → List Bool → List (List ℚ) → List (List ℚ)
  binomPpf : ℚ → ℕ → ℚ → ℚ
  ln : ℚ → ℚ

/-- Stable insertion of an index into an ascending argsort order (equal keys
keep earlier indices first).  numpy's default argsort is deterministic but its
tie order on more than 16 elements is implementation-defined; the embedding
fixes the stable order (see claim C7). -/
def insertIdxAsc (keys : List ℚ) (i : ℕ) : List ℕ → List ℕ
  | [] => [i]
  | j :: js =>
    if keys.getD i 0 < keys.getD j 0 then i :: j :: js
    else j :: insertIdxAsc keys i js

/-- Model of `np.argsort` (ascending index permutation). -/
def argsortAsc (keys : List ℚ) : List ℕ :=
  (List.range keys.length).foldl (fun acc i => insertIdxAsc keys i acc) []

/-- Ranks `np.argsort(-scores).argsort() + 1` of `_rank_and_build_scores`. -/
def ranksDesc (scores : List ℚ) : List ℕ :=
  let order := argsortAsc (scores.map fun s => -s)
  let inv := argsortAsc (order.map fun n => (n : ℚ))
  inv.map (· + 1)

/-- Stable insertion by rank (`feature_scores.sort(key=lambda fs: fs.rank)`). -/
def insertByRank (fs : FeatureScore) : List FeatureScore → List FeatureScore
  | [] => [fs]
  | g :: gs => if fs.rank < g.rank then fs :: g :: gs else g :: insertByRank fs gs

/-- Embedding of `_rank_and_build_scores`. -/
def rank_and_build_scores (feature_names : List String) (scores : List ℚ)
    (selected_mask : List Bool)
    (metadata_list : Option (List (List (String × MVal)))) : List FeatureScore :=
  let ranks := ranksDesc scores
  let items := (List.range feature_names.length).map fun i =>
    FeatureScore.mk (feature_names.getD i "") (scores.getD i 0)
      (selected_mask.getD i false) (ranks.getD i 0)
      (match metadata_list with
       | some ms => some (ms.getD i [])
       | none => none)
  items.foldl (fun acc fs => insertByRank fs acc) []

/-- Selection mask of the `top_k` mode (`np.argsort(scores)[-top_k:]`). -/
def topKMask (scores : List ℚ) (k : ℕ) : List Bool :=
  let order := argsortAsc scores
  let top := order.drop (order.length - k)
  (List.range scores.length).map fun i => decide (i ∈ top)

/-- Names whose mask entry is set (`[n for n, s in zip(names, mask) if s]`). -/
def maskedNames (feature_names : List String) (mask : List Bool) : List String :=
  (feature_names.zip mask).filterMap fun p => if p.2 then some p.1 else none

/-- Embedding of `select_features_tree_importance`. -/
def select_features_tree_importance {σ : Type} (caps : MlCaps)
    (X : List (List ℚ)) (y : List Bool) (feature_names : List String)
    (params : TreeImportanceParams) (random_state : ℕ) (ambient : σ) :
    FeatureSelectionResult × σ :=
  let importances :=
    if params.model_type = "random_forest" then caps.rfImportances random_state X y
    else caps.xgbImportances random_state X y
  let maskMeta : List Bool × List (String × MVal) :=
    match params.top_k with
    | some k => (topKMask importances k,
        [("selection_mode", MVal.str "top_k"), ("k", MVal.nat k)])
    | none =>
      match params.threshold with
      | some th => (importances.map fun s => decide (th ≤ s),
          [("selection_mode", MVal.str "threshold"), ("threshold", MVal.rat th)])
      | none => (importances.map fun s => decide (0 < s),
          [("selection_mode", MVal.str "non_zero")])
  ({ method := "tree_importance"
     selected_features := maskedNames feature_names maskMeta.1
     feature_scores := rank_and_build_scores feature_names importances maskMeta.1 none
     n_selected := maskMeta.1.countP id
     n_total := feature_names.length
     method_metadata :=
       maskMeta.2 ++ [("model_type", MVal.str params.model_type)] }, ambient)

/-- Embedding of `select_features_lasso` (`coefficients = np.abs(model.coef_[0])`,
selected where the absolute coefficient is non-zero). -/
def select_features_lasso {σ : Type} (caps : MlCaps)
    (X : List (List ℚ)) (y : List Bool) (feature_names : List String)
    (params : LassoParams) (random_state : ℕ) (ambient : σ) :
    FeatureSelectionResult × σ :=
  let fitted := caps.lassoFit random_state params.C params.max_iter X y
  let coefficients := fitted.1.map abs
  let n_iter_val := fitted.2
  let selected_mask := coefficients.map fun c => decide (0 < c)
  ({ method := "lasso"
     selected_features := maskedNames feature_names selected_mask
     feature_scores := rank_and_build_scores feature_names coefficients selected_mask none
     n_selected := selected_mask.countP id
     n_total := feature_names.length
     method_metadata :=
       [("C", MVal.rat params.C),
        ("converged", MVal.bool (decide (n_iter_val < params.max_iter))),
        ("n_iterations", MVal.nat n_iter_val)] }, ambient)

/-- Ascending insertion keeping duplicates (for the percentile computation). -/
def insertAsc (x : ℚ) : List ℚ → List ℚ
  | [] => [x]
  | y :: ys => if x ≤ y then x :: y :: ys else y :: insertAsc x ys

/-- Full ascending sort with duplicates. -/
def sortAsc (l : List ℚ) : List ℚ := l.foldr insertAsc []

/-- Sorted distinct values (`np.unique`). -/
def uniqueAsc {α : Type} [LinearOrder α] (l : List α) : List α :=
  (distinctDesc l).reverse

/-- Truncation toward zero (`.astype(int)` applied to a float). -/
def truncQ (q : ℚ) : ℤ := if q < 0 then -⌊-q⌋ else ⌊q⌋

/-- Percentile edges `np.percentile(values, np.linspace(0, 100, n_bins + 1))`
with numpy's default linear interpolation. -/
def quantileEdges (values : List ℚ) (n_bins : ℕ) : List ℚ :=
  let sorted := sortAsc values
  let m := sorted.length
  (List.range (n_bins + 1)).map fun j =>
    let pos : ℚ := ((j * (m - 1) : ℕ) : ℚ) / (n_bins : ℚ)
    let lo : ℕ := (⌊pos⌋).toNat
    let frac : ℚ := pos - (lo : ℚ)
    sorted.getD lo 0 + frac * (sorted.getD (lo + 1) (sorted.getD lo 0) - sorted.getD lo 0)

/-- Embedding of `_calculate_iv_for_feature` (with `np.log` injected;
`np.digitize(values, edges[1:-1])` counts the inner edges `≤ v`). -/
def calculate_iv_for_feature (caps : MlCaps) (feature_values : List ℚ)
    (target : List Bool) (n_bins : ℕ) : ℚ :=
  let uvals := uniqueAsc feature_values
  let bin_indices : List ℤ :=
    if uvals.length ≤ 2 then feature_values.map truncQ
    else
      let edges := uniqueAsc (quantileEdges feature_values n_bins)
      let inner := (edges.drop 1).dropLast
      feature_values.map fun v => (inner.countP fun e => decide (e ≤ v) : ℤ)
  let total_good : ℕ := max (target.countP fun b => !b) 1
  let total_bad : ℕ := max (target.countP id) 1
  (uniqueAsc bin_indices).foldl
    (fun iv b =>
      let n_good := (bin_indices.zip target).countP fun p => decide (p.1 = b) && !p.2
      let n_bad := (bin_indices.zip target).countP fun p => decide (p.1 = b) && p.2
      if n_good = 0 ∨ n_bad = 0 then iv
      else
        let pct_good : ℚ := (n_good : ℚ) / (total_good : ℚ)
        let pct_bad : ℚ := (n_bad : ℚ) / (total_bad : ℚ)
        iv + (pct_good - pct_bad) * caps.ln (pct_good / pct_bad))
    0

/-- Modelled from the spec: the `IV_THRESHOLD_*` constants are referenced by
`_iv_category` but missing from `shared/constants.py`; the spec fixes the
bands as `<0.02` useless, `0.02–0.1` weak, `0.1–0.3` medium, `0.3–0.5` strong,
`>0.5` suspicious. -/
def IV_THRESHOLD_USELESS : ℚ := 2 / 100

/-- Modelled from the spec: see `IV_THRESHOLD_USELESS`. -/
def IV_THRESHOLD_WEAK : ℚ := 1 / 10

/-- Modelled from the spec: see `IV_THRESHOLD_USELESS`. -/
def IV_THRESHOLD_MEDIUM : ℚ := 3 / 10

/-- Modelled from the spec: see `IV_THRESHOLD_USELESS`. -/
def IV_THRESHOLD_STRONG : ℚ := 1 / 2

/-- Embedding of `_iv_category`. -/
def iv_category (iv : ℚ) : String :=
  if iv < IV_THRESHOLD_USELESS then "useless"
  else if iv < IV_THRESHOLD_WEAK then "weak"
  else if iv < IV_THRESHOLD_MEDIUM then "medium"
  else if iv < IV_THRESHOLD_STRONG then "strong"
  else "suspicious"

/-- Embedding of `select_features_woe_iv` (`random_state` is unused, kept for
signature consistency, as in the source). -/
def select_features_woe_iv {σ : Type} (caps : MlCaps)
    (X : List (List ℚ)) (y : List Bool) (feature_names : List String)
    (params : WoeIvParams) (random_state : ℕ) (ambient : σ) :
    FeatureSelectionResult × σ :=
  let iv_scores := X.map fun col => calculate_iv_for_feature caps col y params.n_bins
  let selected_mask := iv_scores.map fun iv => decide (params.iv_threshold ≤ iv)
  let metadata_list := iv_scores.map fun iv =>
    [("iv_category", MVal.str (iv_category iv))]
  ({ method := "woe_iv"
     selected_features := maskedNames feature_names selected_mask
     feature_scores :=
       rank_and_build_scores feature_names iv_scores selected_mask (some metadata_list)
     n_selected := selected_mask.countP id
     n_total := feature_names.length
     method_metadata :=
       [("iv_threshold", MVal.rat params.iv_threshold),
        ("n_bins", MVal.nat params.n_bins),
        ("mean_iv", MVal.rat (iv_scores.foldl (· + ·) 0 / (iv_scores.length : ℚ))),
        ("max_iv", MVal.rat (iv_scores.foldl max 0))] }, ambient)

/-- Shuffle every column in order, threading the `RandomState`. -/
def shuffleColumns {σ : Type} (rng : RngOps σ) : List (List ℚ) → σ → List (List ℚ) × σ
  | [], st => ([], st)
  | col :: cols, st =>
    let shuffled := rng.shuffle st col
    let rest := shuffleColumns rng cols shuffled.2
    (shuffled.1 :: rest.1, rest.2)

/-- One Boruta round: build the shadow matrix by per-column shuffles, fit the
forest (seeded `random_state + iteration`) on real + shadow columns and add a
hit for every real feature whose importance exceeds the best shadow one. -/
def borutaIteration {σ : Type} (rng : RngOps σ) (caps : MlCaps)
    (X : List (List ℚ)) (y : List Bool) (random_state it : ℕ)
    (acc : List ℕ × σ) : List ℕ × σ :=
  let shadow := shuffleColumns rng X acc.2
  let importances := caps.rfImportances (random_state + it) (X ++ shadow.1) y
  let n := X.length
  let real_importances := importances.take n
  let shadow_importances := importances.drop n
  let max_shadow := shadow_importances.foldl max 0
  ((acc.1.zip real_importances).map fun p =>
    p.1 + (if max_shadow < p.2 then 1 else 0), shadow.2)

/-- Embedding of `select_features_boruta`. -/
def select_features_boruta {σ : Type} (rng : RngOps σ) (caps : MlCaps)
    (X : List (List ℚ)) (y : List Bool) (feature_names : List String)
    (params : BorutaParams) (random_state : ℕ) (ambient : σ) :
    FeatureSelectionResult × σ :=
  let st0 := rng.mkState random_state
  let n_features := X.length
  let run := (List.range params.n_iterations).foldl
    (fun acc it => borutaIteration rng caps X y random_state it acc)
    (List.replicate n_features 0, st0)
  let hit_counts := run.1
  let alpha : ℚ := 1 - params.confidence_level
  let threshold_hits := caps.binomPpf (1 - alpha) params.n_iterations (1 / 2)
  let confirmed := hit_counts.map fun h => decide (threshold_hits ≤ (h : ℚ))
  let rejected := hit_counts.map fun h =>
    decide ((h : ℚ) < (params.n_iterations : ℚ) * (1 / 10))
  let tentative := (confirmed.zip rejected).map fun p => !p.1 && !p.2
  let selected_mask :=
    if params.include_tentative then
      (confirmed.zip tentative).map fun p => p.1 || p.2
    else confirmed
  let scores := hit_counts.map fun h => (h : ℚ) / (params.n_iterations : ℚ)
  let metadata_list := (List.range n_features).map fun i =>
    [("status", MVal.str
        (if confirmed.getD i false then "confirmed"
         else if tentative.getD i false then "tentative"
         else "rejected")),
     ("hit_rate", MVal.rat (scores.getD i 0))]
  ({ method := "boruta"
     selected_features := maskedNames feature_names selected_mask
     feature_scores :=
       rank_and_build_scores feature_names scores selected_mask (some metadata_list)
     n_selected := selected_mask.countP id
     n_total := feature_names.length
     method_metadata :=
       [("n_iterations", MVal.nat params.n_iterations),
        ("confidence_level", MVal.rat params.confidence_level),
        ("include_tentative", MVal.bool params.include_tentative),
        ("n_confirmed", MVal.nat (confirmed.countP id)),
        ("n_tentative", MVal.nat (tentative.countP id)),
        ("n_rejected", MVal.nat (rejected.countP id))] }, ambient)

/-- Embedding of `select_features_shap`: subsamples rows without replacement
via `np.random.RandomState(random_state).choice` when the dataset exceeds
`sample_size`, computes tree-SHAP attributions, and ranks by mean |SHAP|. -/
def select_features_shap {σ : Type} (rng : RngOps σ) (caps : MlCaps)
    (X : List (List ℚ)) (y : List Bool) (feature_names : List String)
    (params : ShapParams) (random_state : ℕ) (ambient : σ) :
    FeatureSelectionResult × σ :=
  let n_samples := (X.headD []).length
  let X_sample :=
    if params.sample_size < n_samples then
      let idx := (rng.choice (rng.mkState random_state) n_samples params.sample_size).1
      X.map fun col => idx.map fun i => col.getD i 0
    else X
  let shap_vals := caps.treeShap random_state params.model_type X y X_sample
  let mean_abs_shap := shap_vals.map fun col =>
    (col.map abs).foldl (· + ·) 0 / (col.length : ℚ)
  let maskMeta : List Bool × List (String × MVal) :=
    match params.top_k with
    | some k => (topKMask mean_abs_shap k,
        [("selection_mode", MVal.str "top_k"), ("k", MVal.nat k)])
    | none =>
      match params.threshold with
      | some th => (mean_abs_shap.map fun s => decide (th ≤ s),
          [("selection_mode", MVal.str "threshold"), ("threshold", MVal.rat th)])
      | none => (mean_abs_shap.map fun s => decide (0 < s),
          [("selection_mode", MVal.str "non_zero")])
  ({ method := "shap"
     selected_features := maskedNames feature_names maskMeta.1
     feature_scores := rank_and_build_scores feature_names mean_abs_shap maskMeta.1 none
     n_selected := maskMeta.1.countP id
     n_total := feature_names.length
     method_metadata :=
       maskMeta.2 ++ [("model_type", MVal.str params.model_type),
         ("sample_size", MVal.nat (min n_samples params.sample_size))] }, ambient)

/-- C9: every feature-selection method is deterministic — two calls with the
same feature matrix, labels, names, parameters and `random_seed` return
bit-identical `FeatureSelectionResult`s, independently of the ambient global
RNG state (`g₁`, `g₂`) at the two call times, because every random draw
(Boruta shadow-column shuffles, the SHAP subsample) comes from a
`RandomState` freshly constructed from the supplied seed and the injected
classifier/explainer fits are deterministic given their `random_state`. -/
theorem feature_selection_deterministic :
    ∀ (σ : Type) (rng : RngOps σ) (caps : MlCaps) (X : List (List ℚ))
      (y : List Bool) (names : List String) (tp : TreeImportanceParams)
      (lp : LassoParams) (wp : WoeIvParams) (bp : BorutaParams) (sp : ShapParams)
      (seed : ℕ) (g₁ g₂ : σ),
      (select_features_tree_importance caps X y names tp seed g₁).1 =
        (select_features_tree_importance caps X y names tp seed g₂).1 ∧
      (select_features_lasso caps X y names lp seed g₁).1 =
        (select_features_lasso caps X y names lp seed g₂).1 ∧
      (select_features_woe_iv caps X y names wp seed g₁).1 =
        (select_features_woe_iv caps X y names wp seed g₂).1 ∧
      (select_features_boruta rng caps X y names bp seed g₁).1 =
        (select_features_boruta rng caps X y names bp seed g₂).1 ∧
      (select_features_shap rng caps X y names sp seed g₁).1 =
        (select_features_shap rng caps X y names sp seed g₂).1 :=
  fun _ _ _ _ _ _ _ _ _ _ _ _ _ _ => ⟨rfl, rfl, rfl, rfl, rfl⟩

end CreditRisk
